import Mathlib

/-!
Verification of one-hub: quota cache, request coalescing, retry policy, channel creation
and the Midjourney request transform.

A shallow embedding of the functions of the gateway that the specification talks about:

* `common/common.go`        : `IsRetryableError`, `Retry`
* `common/cache/main.go`    : `GetCache`, `SetCache`, `GetOrSetCache`
* `model/cache.go`          : `CacheGetUserQuota`, `updateQuotaScript`,
                              `CacheUpdateUserRealtimeQuota` and its two wrappers
* `controller/channel.go`   : the record-building loop of `AddChannel`
* `providers/midjourney/base.go` : the request-body transform of `MidjourneyProvider.Send`

Go `error` values are modelled by `GoError`, a nil error by `none`.
-/

namespace OneHub

/-! ## Go errors -/

/-- Go error values that occur in the embedded code. `wrap` is an error built with
`fmt.Errorf("...%w", inner)`, whose `Unwrap` gives `inner`. -/
inductive GoError where
  /-- the sentinel `gorm.ErrRecordNotFound` -/
  | ErrRecordNotFound
  /-- the sentinel `cache.CacheNotFound` -/
  | CacheNotFound
  /-- an error made by `errors.New(text)` or returned by a collaborator -/
  | msg (text : String)
  /-- an error made by `fmt.Errorf(text ++ ": %w", inner)` -/
  | wrap (text : String) (inner : GoError)
  /-- the sentinel `strconv.ErrSyntax` -/
  | ErrSyntax
  /-- the sentinel `strconv.ErrRange` -/
  | ErrRange
  /-- the error `&strconv.NumError{Func: func, Num: num, Err: inner}` -/
  | numError (func num : String) (inner : GoError)
  deriving DecidableEq, Repr

/-- Go `errors.Is(err, target)` for a non-nil `err`: walk the `Unwrap` chain looking for `target`. -/
def errorsIs : GoError → GoError → Bool
  | .wrap t inner, target => decide (GoError.wrap t inner = target) || errorsIs inner target
  | .numError f n inner, target =>
    decide (GoError.numError f n inner = target) || errorsIs inner target
  | e, target => decide (e = target)

/-! ## common/common.go -/

/-- Go `IsRetryableError(err)`: false when `errors.Is(err, gorm.ErrRecordNotFound)`, true
otherwise. `errors.Is(nil, target)` is false for a non-nil target. -/
def IsRetryableError (err : Option GoError) : Bool :=
  match err with
  | none => true
  | some e => if errorsIs e .ErrRecordNotFound then false else true

/-- What the closure handed to `backoff.Retry` returns: `&backoff.PermanentError{Err: err}`
or the plain error. -/
inductive BackoffErr where
  | permanent (err : GoError)
  | plain (err : GoError)
  deriving DecidableEq, Repr

/-- The state of `backoff.WithMaxRetries(delegate, max)` (type `backOffTries` of
github.com/cenkalti/backoff/v4): the ceiling and the number of `NextBackOff` calls that
did not stop. -/
structure BackOffTries where
  maxTries : Nat
  numTries : Nat
  deriving DecidableEq, Repr

/-- Go `backoff.WithMaxRetries(backoff.NewConstantBackOff(1ms), max)` after the `Reset` that
`backoff.Retry` performs first. -/
def WithMaxRetries (max : Nat) : BackOffTries := { maxTries := max, numTries := 0 }

/-- Go `(*backOffTries).NextBackOff`: `none` is `backoff.Stop`; otherwise the counter is
incremented and the delegate (a constant back-off, never `Stop`) gives the delay.
```
if b.maxTries == 0 { return Stop }
if b.maxTries > 0 { if b.maxTries <= b.numTries { return Stop }; b.numTries++ }
return b.delegate.NextBackOff()
``` -/
def BackOffTries.NextBackOff (b : BackOffTries) : Option BackOffTries :=
  if b.maxTries = 0 then none
  else if b.maxTries ≤ b.numTries then none
  else some { b with numTries := b.numTries + 1 }

/-- The loop of `backoff.Retry(o, b)`:
```
for {
    if err = operation(); err == nil { return nil }
    if permanent, ok := err.(*PermanentError); ok { return permanent.Err }
    if next = b.NextBackOff(); next == Stop { return err }
    sleep(next)
}
```
An operation is a function on an explicit state `σ` (what its side effects act on). -/
def backoffRetry {σ : Type} (o : σ → Option BackoffErr × σ) (b : BackOffTries) (s : σ) :
    Option GoError × σ :=
  match o s with
  | (none, s1) => (none, s1)
  | (some (.permanent e), s1) => (some e, s1)
  | (some (.plain e), s1) =>
    if _h : b.maxTries = 0 then (some e, s1)
    else if _h2 : b.maxTries ≤ b.numTries then (some e, s1)
    else backoffRetry o { b with numTries := b.numTries + 1 } s1
termination_by b.maxTries - b.numTries
decreasing_by simp_wf; omega

/-- The closure that `Retry` passes to `backoff.Retry`. -/
def retryClosure {σ : Type} (operation : σ → Option GoError × σ) (s : σ) :
    Option BackoffErr × σ :=
  match operation s with
  | (some err, s1) =>
    if !IsRetryableError (some err) then (some (.permanent err), s1)
    else (some (.plain err), s1)
  | (none, s1) => (none, s1)

/-- Go `Retry(operation)`: `backoff.Retry` of the closure with
`backoff.WithMaxRetries(backoff.NewConstantBackOff(time.Millisecond*1), 3)`. -/
def Retry {σ : Type} (operation : σ → Option GoError × σ) (s : σ) : Option GoError × σ :=
  backoffRetry (retryClosure operation) (WithMaxRetries 3) s

/-- An operation instrumented with a counter of its invocations. -/
def counted {σ : Type} (operation : σ → Option GoError × σ) (sc : σ × Nat) :
    Option GoError × (σ × Nat) :=
  ((operation sc.1).1, ((operation sc.1).2, sc.2 + 1))

/-- The state an operation has reached after `n` invocations starting in `s`. -/
def stateAfter {σ : Type} (operation : σ → Option GoError × σ) (s : σ) : Nat → σ
  | 0 => s
  | n + 1 => (operation (stateAfter operation s n)).2

/-- The result of invocation number `n` (counting from 0) of an operation started in `s`. -/
def resultAt {σ : Type} (operation : σ → Option GoError × σ) (s : σ) (n : Nat) :
    Option GoError :=
  (operation (stateAfter operation s n)).1

/-- An operation that fails with the same transient error at every invocation. -/
def alwaysBusy (s : Unit) : Option GoError × Unit := (some (.msg "database is locked"), s)

/-- An operation on a counter state that fails twice and then succeeds. -/
def failTwice (n : Nat) : Option GoError × Nat :=
  if n < 2 then (some (.msg "database is locked"), n + 1) else (none, n + 1)

/-- An operation that reports a wrapped record-not-found. -/
def notFoundOp (s : Unit) : Option GoError × Unit :=
  (some (.wrap "load user" .ErrRecordNotFound), s)

/-! ## common/cache/main.go -/

/-- What the marshaling key/value cache holds under a key: the stored bytes, seen through
their decoding into the caller's type `T` (a value, or the decoding error that
`kvCache.Get` returns), with the expiration they were stored with. -/
structure CacheItem (T : Type) where
  decoded : Except GoError T
  expiration : Int

/-- The state of `kvCache`: absent keys are reported by the store as `store.NotFound`. -/
abbrev KvCache (T : Type) := String → Option (CacheItem T)

/-- Go `GetCache[T](key)`: a `store.NotFound` becomes `CacheNotFound`, any other error is passed
on, both with the zero value of `T`. -/
def GetCache {T : Type} [Inhabited T] (kv : KvCache T) (key : String) : T × Option GoError :=
  match kv key with
  | none => (default, some .CacheNotFound)
  | some item =>
    match item.decoded with
    | .error err => (default, some err)
    | .ok val => (val, none)

/-- Go `SetCache(key, value, expiration)` on the cache state: the error of `kvCache.Set`
and the state after it. Whether the marshaler and the store take an entry (the store
refuses a key or an entry that is too large for it) is given by `refuse`, which says for
a key and a value the error they are turned down with, if any; an entry that is turned
down is not stored. -/
def SetCache {T : Type} (refuse : String → T → Option GoError) (kv : KvCache T)
    (key : String) (value : T) (expiration : Int) : Option GoError × KvCache T :=
  match refuse key value with
  | some err => (some err, kv)
  | none =>
    (none,
      fun k => if k = key then some { decoded := .ok value, expiration := expiration } else kv k)

/-- Go `GetOrSetCache[T](key, expiration, fn, timeout)` for a caller that is alone on `key`
(so that `sfGroup.DoChan` runs the closure for it). `fn` is given by what it returns;
`arrived` says whether the result is received before `time.After(timeout)` fires. The
closure runs to its end in either case, so the returned cache state is the one after it.

The closure hands `(nil, err)` to the channel when `fn` fails and `(v, nil)` otherwise;
`r.Val` is modelled by `Option T`, `none` being the nil interface value, on which the type
assertion `r.Val.(T)` does not hold. The closure drops what `SetCache` returns. -/
def GetOrSetCache {T : Type} [Inhabited T] (refuse : String → T → Option GoError)
    (kv : KvCache T) (key : String) (expiration : Int)
    (fn : T × Option GoError) (arrived : Bool) : (T × Option GoError) × KvCache T :=
  match GetCache kv key with
  | (v, none) => ((v, none), kv)
  | (_, some err) =>
    if !errorsIs err .CacheNotFound then ((default, some err), kv)
    else
      let r : (Option T × Option GoError) × KvCache T :=
        match fn with
        | (_, some e) => ((none, some e), kv)
        | (v, none) => ((some v, none), (SetCache refuse kv key v expiration).2)
      if arrived then
        match r.1.1 with
        | none => ((default, some (.msg "类型断言失败")), r.2)
        | some v => ((v, r.1.2), r.2)
      else ((default, some (.msg "超时")), r.2)

/-! ## model/cache.go : the durable read with a fast-path cache -/

/-- Smallest and largest value of a Go `int` / `int64`. -/
def minInt64 : Int := -(2 ^ 63)

/-- Largest value of a Go `int` / `int64`. -/
def maxInt64 : Int := 2 ^ 63 - 1

/-- A value of Go type `int` (64 bits). -/
def isInt64 (n : Int) : Prop := minInt64 ≤ n ∧ n ≤ maxInt64

instance (n : Int) : Decidable (isInt64 n) := by unfold isInt64; infer_instance

/-- Two-complement wrap-around of 64-bit arithmetic. -/
def wrapInt64 (n : Int) : Int := (n + 2 ^ 63) % 2 ^ 64 - 2 ^ 63

/-- How the digit loop of `strconv.ParseUint(s, 10, 64)` ends. -/
inductive DigitScan where
  /-- a character that is not a decimal digit was met -/
  | syntaxError
  /-- the value left the unsigned 64-bit range -/
  | rangeError
  /-- all characters were digits; their value -/
  | value (n : Nat)
  deriving DecidableEq, Repr

/-- The digit loop of `strconv.ParseUint(s, 10, 64)`, with `n` the value so far:
```
for _, c := range []byte(s) {
    ... d = c - '0', or return 0, syntaxError
    if n >= cutoff { return maxVal, rangeError }     // cutoff = maxUint64/10 + 1
    n *= 10
    n1 := n + uint64(d)
    if n1 < n || n1 > maxVal { return maxVal, rangeError }
    n = n1
}
``` -/
def scanDigits : List Char → Nat → DigitScan
  | [], n => .value n
  | c :: cs, n =>
    if !c.isDigit then .syntaxError
    else if n ≥ (2 ^ 64 - 1) / 10 + 1 then .rangeError
    else if n * 10 + (c.toNat - 48) > 2 ^ 64 - 1 then .rangeError
    else scanDigits cs (n * 10 + (c.toNat - 48))

/-- Go `strconv.Atoi(s)` on a 64-bit platform: an optional sign, then decimal digits. A
string that is not of this form gives 0 and a syntax error; a value outside `int` gives
the nearest bound of `int` and a range error. -/
def Atoi (s : String) : Int × Option GoError :=
  let body : Bool × List Char :=
    match s.data with
    | '-' :: ds => (true, ds)
    | '+' :: ds => (false, ds)
    | ds => (false, ds)
  let range : Int × Option GoError :=
    (if body.1 then minInt64 else maxInt64, some (.numError "Atoi" s .ErrRange))
  match body.2 with
  | [] => (0, some (.numError "Atoi" s .ErrSyntax))
  | ds =>
    match scanDigits ds 0 with
    | .syntaxError => (0, some (.numError "Atoi" s .ErrSyntax))
    | .rangeError => range
    | .value un =>
      if !body.1 ∧ un ≥ 2 ^ 63 then range
      else if body.1 ∧ un > 2 ^ 63 then range
      else (if body.1 then -(un : Int) else (un : Int), none)

/-- The collaborators of `CacheGetUserQuota`, given by what each call returns:
`redis.RedisGet(key)`, the durable read `GetUserQuota(id)` and
`redis.RedisSet(key, value, expiration)`. -/
structure QuotaEnv where
  RedisGet : String → String × Option GoError
  GetUserQuota : Int → Int × Option GoError
  RedisSet : String → String → Int → Option GoError

/-- The Go expression `fmt.Sprintf(UserQuotaCacheKey, id)` with `UserQuotaCacheKey = "user_quota:%d"`. -/
def UserQuotaCacheKey (id : Int) : String := "user_quota:" ++ toString id

/-- A line handed to `logger.SysError`: the text `text + err.Error()`. -/
structure LogLine where
  text : String
  err : GoError
  deriving DecidableEq, Repr

/-- What a call of `CacheGetUserQuota` gives: the two results and the lines it logged. -/
structure QuotaRead where
  quota : Int
  err : Option GoError
  logged : List LogLine
  deriving DecidableEq, Repr

/-- Go `CacheGetUserQuota(id)`; `TokenCacheSeconds` is the TTL of the seeding write. -/
def CacheGetUserQuota (RedisEnabled : Bool) (TokenCacheSeconds : Int) (env : QuotaEnv)
    (id : Int) : QuotaRead :=
  if !RedisEnabled then
    { quota := (env.GetUserQuota id).1, err := (env.GetUserQuota id).2, logged := [] }
  else
    match env.RedisGet (UserQuotaCacheKey id) with
    | (_, some _) =>
      match env.GetUserQuota id with
      | (_, some err) => { quota := 0, err := some err, logged := [] }
      | (quota, none) =>
        match env.RedisSet (UserQuotaCacheKey id) (toString quota) TokenCacheSeconds with
        | some err =>
          { quota := quota, err := some err,
            logged := [{ text := "Redis set user quota error: ", err := err }] }
        | none => { quota := quota, err := none, logged := [] }
    | (quotaString, none) =>
      { quota := (Atoi quotaString).1, err := (Atoi quotaString).2, logged := [] }

/-- A fast-path store that cannot be reached, over a durable store that answers 500000. -/
def redisDown : QuotaEnv where
  RedisGet := fun _ => ("", some (.msg "dial tcp: connection refused"))
  GetUserQuota := fun _ => (500000, none)
  RedisSet := fun _ _ _ => some (.msg "dial tcp: connection refused")

/-! ## model/cache.go : the realtime quota counter -/

/-- A key of the Redis server that holds an integer: its value and the seconds it has left
to live (`none`: no expiry set). -/
structure RedisEntry where
  value : Int
  ttl : Option Nat
  deriving DecidableEq, Repr

/-- The state of the Redis server, restricted to integer-valued keys. -/
abbrev RedisStore := String → Option RedisEntry

/-- The empty server. -/
def emptyStore : RedisStore := fun _ => none

/-- Write one key. -/
def RedisStore.put (store : RedisStore) (key : String) (e : RedisEntry) : RedisStore :=
  fun k => if k = key then some e else store k

/-- Redis command `EXISTS key`. -/
def EXISTS (store : RedisStore) (key : String) : Int :=
  match store key with
  | some _ => 1
  | none => 0

/-- Redis command `SET key value EX seconds`. -/
def SETEX (store : RedisStore) (key : String) (value : Int) (seconds : Nat) : RedisStore :=
  store.put key { value := value, ttl := some seconds }

/-- The number of low bits of the magnitude `m` that do not fit the 53-bit significand of an
IEEE 754 double; `fuel` bounds the halvings (`m` itself is always enough). -/
def droppedBits : Nat → Nat → Nat
  | 0, _ => 0
  | fuel + 1, m => if m < 2 ^ 53 then 0 else droppedBits fuel (m / 2) + 1

/-- The magnitude `m` rounded to the nearest double, ties to the even significand. -/
def roundNat (m : Nat) : Nat :=
  let s := droppedBits m m
  let q := m / 2 ^ s
  let r := m % 2 ^ s
  if 2 * r > 2 ^ s ∨ (2 * r = 2 ^ s ∧ q % 2 = 1) then (q + 1) * 2 ^ s else q * 2 ^ s

/-- The Lua number (an IEEE 754 double) that an integer becomes inside the script, given by
its value: what `tonumber(ARGV[1])` makes of the decimal text of a Go `int`, and what an
integer reply of the server becomes when `redis.call` hands it to the script. Integers
up to 2^53 in magnitude are kept; larger ones are rounded. -/
def luaNumber (n : Int) : Int :=
  if n < 0 then -((roundNat n.natAbs : Nat) : Int) else ((roundNat n.natAbs : Nat) : Int)

/-- What depends on the version and the platform of the Redis server in the passage of
large Lua numbers between the script and the server. -/
structure LuaHost where
  /-- the integer, if any, that a command reads from the text `redis.call` writes for a
  Lua number of magnitude from 10^17 up to below 2^63 (older servers write such a number
  with an exponent, which is no integer to the command; newer ones write digits) -/
  largeArg : Int → Option Int
  /-- the integer reply made of the Lua number 2^63, which is outside `long long` -/
  overflowReply : Int

/-- The integer that a command reads from a Lua number argument of integer value `d`:
below 10^17 in magnitude every server writes the digits of `d`; from 2^63 on no server
writes a text that is a 64-bit integer (`none`). -/
def numberArg (host : LuaHost) (d : Int) : Option Int :=
  if -(10 ^ 17) < d ∧ d < 10 ^ 17 then some d
  else if d ≤ -(2 ^ 63) ∨ 2 ^ 63 ≤ d then none
  else host.largeArg d

/-- The integer reply of a script that returns the Lua number of integer value `d`. -/
def numberReply (host : LuaHost) (d : Int) : Int :=
  if minInt64 ≤ d ∧ d ≤ maxInt64 then d else host.overflowReply

/-- Redis command `INCRBY key increment`, the increment being what the command reads from
its argument (`none`: not a 64-bit integer). An absent key counts as 0; the server refuses
a result outside the signed 64-bit range. A refused command leaves the key as it is. -/
def INCRBY (store : RedisStore) (key : String) (increment : Option Int) :
    Except GoError (Int × RedisStore) :=
  match increment with
  | none => .error (.msg "ERR value is not an integer or out of range")
  | some incr =>
    if incr < minInt64 ∨ maxInt64 < incr then
      .error (.msg "ERR value is not an integer or out of range")
    else
      let old : RedisEntry := (store key).getD { value := 0, ttl := none }
      let newValue := old.value + incr
      if newValue < minInt64 ∨ maxInt64 < newValue then
        .error (.msg "ERR increment or decrement would overflow")
      else .ok (newValue, store.put key { old with value := newValue })

/-- Redis command `EXPIRE key seconds`. -/
def EXPIRE (store : RedisStore) (key : String) (seconds : Nat) : RedisStore :=
  match store key with
  | some e => store.put key { e with ttl := some seconds }
  | none => store

/-- The server-side script `updateQuotaScript`, run atomically on the server state, with
`argv1` the Go `int` that is sent as `ARGV[1]`. The script computes in Lua numbers:
`increment` is the double nearest to `argv1`, it is written back as text for `INCRBY`, and
the reply of `INCRBY` passes through a double before it is returned. `expiration` is
`ARGV[2]`, the 86400 seconds of the only caller, which all of this keeps as it is. A command
that fails ends the script; what the script wrote before stays written.
```
local key = KEYS[1]
local increment = tonumber(ARGV[1])
local expiration = tonumber(ARGV[2])
local exists = redis.call("EXISTS", key)
if exists == 0 then
    if increment < 0 then return 0 end
    redis.call("SET", key, "0", "EX", expiration)
end
local newValue = redis.call("INCRBY", key, increment)
redis.call("EXPIRE", key, expiration)
return newValue
``` -/
def updateQuotaScript (host : LuaHost) (store : RedisStore) (key : String) (argv1 : Int)
    (expiration : Nat) : Except GoError Int × RedisStore :=
  let increment := luaNumber argv1
  let tail (store1 : RedisStore) : Except GoError Int × RedisStore :=
    match INCRBY store1 key (numberArg host increment) with
    | .error e => (.error e, store1)
    | .ok (newValue, store2) =>
      (.ok (numberReply host (luaNumber newValue)), EXPIRE store2 key expiration)
  if EXISTS store key = 0 then
    if increment < 0 then (.ok 0, store)
    else tail (SETEX store key 0 expiration)
  else tail store

/-- The Go expression `fmt.Sprintf(UserRealtimeQuotaKey, id)` with
`UserRealtimeQuotaKey = "user_realtime_quota:%d"`. -/
def UserRealtimeQuotaKey (id : Int) : String := "user_realtime_quota:" ++ toString id

/-- The Go expression `int(UserRealtimeQuotaExpiration.Seconds())` with
`UserRealtimeQuotaExpiration = 24 * time.Hour`. -/
def UserRealtimeQuotaExpiration : Nat := 24 * 3600

/-- Go `CacheUpdateUserRealtimeQuota(id, quota)`: the returned pair and the server state
after the call. -/
def CacheUpdateUserRealtimeQuota (host : LuaHost) (RedisEnabled : Bool) (store : RedisStore)
    (id quota : Int) : (Int × Option GoError) × RedisStore :=
  if !RedisEnabled then ((0, none), store)
  else
    match updateQuotaScript host store (UserRealtimeQuotaKey id) quota
        UserRealtimeQuotaExpiration with
    | (.error err, store1) => ((0, some (.wrap "更新用户配额失败" err)), store1)
    | (.ok newValue, store1) => ((newValue, none), store1)

/-- Go `CacheDecreaseUserRealtimeQuota(id, quota)`: the update with `-quota` (64-bit). -/
def CacheDecreaseUserRealtimeQuota (host : LuaHost) (RedisEnabled : Bool)
    (store : RedisStore) (id quota : Int) : (Int × Option GoError) × RedisStore :=
  if !RedisEnabled then ((0, none), store)
  else CacheUpdateUserRealtimeQuota host RedisEnabled store id (wrapInt64 (-quota))

/-- Go `CacheIncreaseUserRealtimeQuota(id, quota)`: the update with `quota`. -/
def CacheIncreaseUserRealtimeQuota (host : LuaHost) (RedisEnabled : Bool)
    (store : RedisStore) (id quota : Int) : (Int × Option GoError) × RedisStore :=
  if !RedisEnabled then ((0, none), store)
  else CacheUpdateUserRealtimeQuota host RedisEnabled store id quota

/-- The passing of `dt` seconds on the server: keys whose time is up are gone. -/
def elapse (dt : Nat) (store : RedisStore) : RedisStore :=
  fun k =>
    match store k with
    | none => none
    | some e =>
      match e.ttl with
      | none => some e
      | some t => if t ≤ dt then none else some { e with ttl := some (t - dt) }

/-- A call of one of the three realtime-quota functions, with its Go `int` arguments. -/
inductive QuotaCall where
  | update (id quota : Int)
  | increase (id quota : Int)
  | decrease (id quota : Int)
  deriving DecidableEq, Repr

/-- The user a call is about. -/
def QuotaCall.user : QuotaCall → Int
  | .update id _ => id
  | .increase id _ => id
  | .decrease id _ => id

/-- The delta a call hands to the script. -/
def QuotaCall.delta : QuotaCall → Int
  | .update _ quota => quota
  | .increase _ quota => quota
  | .decrease _ quota => wrapInt64 (-quota)

/-- The Go `int` argument of a call. -/
def QuotaCall.arg : QuotaCall → Int
  | .update _ quota => quota
  | .increase _ quota => quota
  | .decrease _ quota => quota

/-- What a call returns and the server state after it, with the fast-path layer enabled. -/
def QuotaCall.exec (host : LuaHost) (store : RedisStore) :
    QuotaCall → (Int × Option GoError) × RedisStore
  | .update id quota => CacheUpdateUserRealtimeQuota host true store id quota
  | .increase id quota => CacheIncreaseUserRealtimeQuota host true store id quota
  | .decrease id quota => CacheDecreaseUserRealtimeQuota host true store id quota

/-- The server state after a call, with the fast-path layer enabled. -/
def QuotaCall.run (host : LuaHost) (store : RedisStore) (c : QuotaCall) : RedisStore :=
  (c.exec host store).2

/-- The server states that sequences of realtime-quota calls (and the passing of time)
produce from the empty server. -/
inductive Reachable (host : LuaHost) : RedisStore → Prop where
  | empty : Reachable host emptyStore
  | call (store : RedisStore) (c : QuotaCall) (harg : isInt64 c.arg) :
      Reachable host store → Reachable host (c.run host store)
  | wait (store : RedisStore) (dt : Nat) :
      Reachable host store → Reachable host (elapse dt store)

/-- An amount of at most 2^53 in magnitude, which the script's numbers hold exactly. -/
def Exact (n : Int) : Prop := -(2 ^ 53) ≤ n ∧ n ≤ 2 ^ 53

instance (n : Int) : Decidable (Exact n) := by unfold Exact; infer_instance

/-- A call that does not take more out of a present counter than the counter holds. -/
def Covered (store : RedisStore) (c : QuotaCall) : Prop :=
  ∀ e, store (UserRealtimeQuotaKey c.user) = some e → 0 ≤ e.value + c.delta

/-- The server states produced from the empty server by calls with amounts of at most 2^53
in magnitude, each of which is covered by the counter it finds. -/
inductive ReachableCovered (host : LuaHost) : RedisStore → Prop where
  | empty : ReachableCovered host emptyStore
  | call (store : RedisStore) (c : QuotaCall) (harg : Exact c.arg)
      (hcov : Covered store c) :
      ReachableCovered host store → ReachableCovered host (c.run host store)
  | wait (store : RedisStore) (dt : Nat) :
      ReachableCovered host store → ReachableCovered host (elapse dt store)

/-- A server of the older kind: large Lua numbers are written with an exponent. -/
def oldServer : LuaHost := { largeArg := fun _ => none, overflowReply := minInt64 }

/-- The key of user 1 holding 5 with a day to live. -/
def counterAtFive : RedisStore :=
  emptyStore.put (UserRealtimeQuotaKey 1) { value := 5, ttl := some UserRealtimeQuotaExpiration }

/-- The server after user 1 is increased by 2^53 and then by 3. -/
def counterAtLarge : RedisStore :=
  (QuotaCall.increase 1 3).run oldServer ((QuotaCall.increase 1 (2 ^ 53)).run oldServer emptyStore)

/-! ## controller/channel.go -/

/-- The fields of `model.Channel` that `AddChannel` reads or writes; `BaseURL` is a
`*string`, `none` being nil. -/
structure Channel where
  Name : String
  Key : String
  BaseURL : Option String
  CreatedTime : Int
  deriving DecidableEq, Repr

/-- Cut a character sequence at every occurrence of `sep`: between n occurrences there are
n + 1 pieces, empty ones included. -/
def splitChars (sep : Char) : List Char → List (List Char)
  | [] => [[]]
  | c :: cs =>
    if c = sep then [] :: splitChars sep cs
    else
      match splitChars sep cs with
      | [] => [[c]]
      | w :: ws => (c :: w) :: ws

/-- Go `strings.Split(s, "\n")`. -/
def SplitLines (s : String) : List String := (splitChars '\n' s.data).map String.mk

/-- Go `strconv.Itoa(n)` for the indices of the loop, which are not negative. -/
def Itoa (n : Nat) : String := toString n

/-- The body of the loop of `AddChannel` for a key that is not empty: the record built at
position `index` for `key`.
```
localChannel := channel
localChannel.Key = key
if index > 0 { localChannel.Name = localChannel.Name + "_" + strconv.Itoa(index+1) }
if len(baseUrls) > index && baseUrls[index] != "" {
    localChannel.BaseURL = &baseUrls[index]
} else if len(baseUrls) > 0 {
    localChannel.BaseURL = &baseUrls[0]
}
``` -/
def localChannel (channel : Channel) (baseUrls : List String) (index : Nat) (key : String) :
    Channel :=
  let named : Channel :=
    { channel with
      Key := key
      Name := if index > 0 then channel.Name ++ "_" ++ Itoa (index + 1) else channel.Name }
  let first : Channel :=
    match baseUrls with
    | u0 :: _ => { named with BaseURL := some u0 }
    | [] => named
  match baseUrls[index]? with
  | some u => if u ≠ "" then { named with BaseURL := some u } else first
  | none => first

/-- The loop `for index, key := range keys` of `AddChannel`, from position `index` on:
empty keys are skipped (and still count as a position). -/
def channelLoop (channel : Channel) (baseUrls : List String) : Nat → List String → List Channel
  | _, [] => []
  | index, key :: rest =>
    if key = "" then channelLoop channel baseUrls (index + 1) rest
    else localChannel channel baseUrls index key :: channelLoop channel baseUrls (index + 1) rest

/-- The records `AddChannel` builds from the bound request `channel` at time `now`
(the slice `channels` that is then inserted in batches). -/
def AddChannel (channel : Channel) (now : Int) : List Channel :=
  let channel : Channel := { channel with CreatedTime := now }
  let keys := SplitLines channel.Key
  let baseUrls : List String :=
    match channel.BaseURL with
    | some u => if u ≠ "" then SplitLines u else []
    | none => []
  channelLoop channel baseUrls 0 keys

/-- A blob of lines: the lines joined by a newline. -/
def joinLines : List String → String
  | [] => ""
  | [l] => l
  | l :: rest => l ++ "\n" ++ joinLines rest

/-- A line of a blob: not empty and without a newline in it. -/
def IsLine (l : String) : Prop := l ≠ "" ∧ '\n' ∉ l.data

instance (l : String) : Decidable (IsLine l) := by unfold IsLine; infer_instance

/-- The name of the record at 0-based position `i`. -/
def siblingName (name : String) (i : Nat) : String :=
  if i = 0 then name else name ++ "_" ++ Itoa (i + 1)

/-- A request with three keys and one shared URL. -/
def threeKeysOneUrl : Channel :=
  { Name := "name", Key := "k1\nk2\nk3", BaseURL := some "u1", CreatedTime := 0 }

/-- A request with three keys and a URL for each. -/
def threeKeysThreeUrls : Channel :=
  { Name := "name", Key := "k1\nk2\nk3", BaseURL := some "u1\nu2\nu3", CreatedTime := 0 }

/-- A request with three keys and two URLs. -/
def threeKeysTwoUrls : Channel :=
  { Name := "name", Key := "k1\nk2\nk3", BaseURL := some "u1\nu2", CreatedTime := 0 }

/-! ## providers/midjourney/base.go -/

/-- A JSON value as `encoding/json` decodes it into `interface{}`. A number is kept by
its text. -/
inductive JSON where
  | null
  | bool (b : Bool)
  | num (text : String)
  | str (s : String)
  | arr (items : List JSON)
  | obj (members : List (String × JSON))

/-- A Go `map[string]interface{}`: at most one binding per key; the order carries no
meaning. -/
abbrev GoMap := List (String × JSON)

/-- The value `m[key]`, if there is one. -/
def GoMap.get (m : GoMap) (key : String) : Option JSON :=
  match m with
  | [] => none
  | (k, v) :: rest => if k = key then some v else GoMap.get rest key

/-- The Go statement `delete(m, key)`. -/
def GoMap.delete (m : GoMap) (key : String) : GoMap :=
  m.filter (fun kv => kv.1 != key)

/-- The Go statement `m[key] = v`. -/
def GoMap.set (m : GoMap) (key : String) (v : JSON) : GoMap :=
  (key, v) :: GoMap.delete m key

/-- The map that `json.Unmarshal` fills from the members of a JSON object, from left to
right, a later member replacing an earlier one of the same name. -/
def GoMap.ofMembers (members : List (String × JSON)) : GoMap :=
  members.foldl (fun m kv => GoMap.set m kv.1 kv.2) []

/-- Go `strings.Replace(s, old, new, -1)` for a non-empty `old`, on the characters: from left
to right, every occurrence of `old` that does not overlap an earlier one is replaced. -/
def replaceChars (old new : List Char) (s : List Char) : List Char :=
  match s with
  | [] => []
  | c :: cs =>
    if old.isPrefixOf (c :: cs) then new ++ replaceChars old new (cs.drop (old.length - 1))
    else c :: replaceChars old new cs
termination_by s.length
decreasing_by
  all_goals simp_wf
  all_goals omega

/-- Go `strings.Replace(s, old, new, -1)`. -/
def Replace (s old new : String) : String := String.mk (replaceChars old.data new.data s.data)

/-- Go `strings.Contains(s, sub)` on the characters. -/
def containsChars (sub : List Char) : List Char → Bool
  | [] => sub.isEmpty
  | c :: cs => sub.isPrefixOf (c :: cs) || containsChars sub cs

/-- Go `strings.Contains(s, sub)`. -/
def Contains (s sub : String) : Bool := containsChars sub.data s.data

/-- Go `strings.ToUpper(s)`: the ASCII letters a-z are raised; every other character goes
through `unicode.ToUpper`, which is taken as the parameter `unicodeUpper`. -/
def ToUpper (unicodeUpper : Char → Char) (s : String) : String :=
  String.mk (s.data.map fun c => if c.toNat < 128 then c.toUpper else unicodeUpper c)

/-- What `p.GetRawBody()` and `json.Unmarshal(body, &mapResult)` see of the inbound body. -/
inductive RawBody where
  /-- no body was kept for the request -/
  | missing
  /-- bytes that are not JSON -/
  | malformed (err : GoError)
  /-- bytes that are the JSON value `j` -/
  | json (j : JSON)

/-- How the body-building part of `Send` ends. -/
inductive SendBody where
  /-- an early return with this reason key and error -/
  | failed (reason : String) (err : Option GoError)
  /-- a run-time panic -/
  | panicked (what : String)
  /-- the map `mapResult` as it is handed to `json.Marshal`; `none` is the nil map -/
  | marshal (mapResult : Option GoMap)

/-- The prompt rewriting of `Send`:
```
prompt = strings.Replace(prompt, "--fast", "", -1)
prompt = strings.Replace(prompt, "--relax", "", -1)
prompt = strings.Replace(prompt, "--turbo", "", -1)
``` -/
def stripFlags (prompt : String) : String :=
  Replace (Replace (Replace prompt "--fast" "") "--relax" "") "--turbo" ""

/-- The step `if prompt, ok := mapResult["prompt"].(string); ok { ... }` of `Send`. -/
def rewritePrompt (mapResult : Option GoMap) : Option GoMap :=
  match mapResult with
  | none => none
  | some m =>
    match m.get "prompt" with
    | some (.str prompt) => some (m.set "prompt" (.str (stripFlags prompt)))
    | _ => some m

/-- The part of `MidjourneyProvider.Send` that builds the outbound body, up to
`json.Marshal(mapResult)`. `Method` is `p.Context.Request.Method`, `mjModel` is
`p.Context.GetString("mj_model")` (empty when not set), `MjNotifyEnabled` is the
configuration flag. -/
def Send (unicodeUpper : Char → Char) (MjNotifyEnabled : Bool) (Method : String)
    (mjModel : String) (body : RawBody) : SendBody :=
  if Method ≠ "GET" then
    match body with
    | .missing => .failed "request_body_not_found" none
    | .malformed err => .failed "read_request_body_failed" (some err)
    | .json (.obj members) =>
      let mapResult := GoMap.ofMembers members
      let mapResult := mapResult.delete "accountFilter"
      let mjModel := if mjModel = "" then "fast" else mjModel
      let mapResult := mapResult.set "accountFilter"
        (.obj [("modes", .arr [.str (ToUpper unicodeUpper mjModel)])])
      let mapResult := if !MjNotifyEnabled then mapResult.delete "notifyHook" else mapResult
      .marshal (rewritePrompt (some mapResult))
    | .json .null => .panicked "assignment to entry in nil map"
    | .json _ =>
      .failed "read_request_body_failed"
        (some (.msg "json: cannot unmarshal into Go value of type map[string]interface {}"))
  else .marshal (rewritePrompt none)

/-- The string under `prompt` of the outbound body, if there is one. -/
def SendBody.prompt : SendBody → Option String
  | .marshal (some m) =>
    match m.get "prompt" with
    | some (.str p) => some p
    | _ => none
  | _ => none

/-- The value under `accountFilter` of the outbound body, if there is one. -/
def SendBody.accountFilter : SendBody → Option JSON
  | .marshal (some m) => m.get "accountFilter"
  | _ => none

/-- The account filter `{"modes": [mode]}`. -/
def modesOnly (mode : String) : JSON := .obj [("modes", .arr [.str mode])]

/-- The body `{"prompt": "a cat --fast"}`. -/
def catBody : RawBody := .json (.obj [("prompt", .str "a cat --fast")])

/-- The body `{"accountFilter": {"modes": ["TURBO"]}, "prompt": "a dog"}`. -/
def dogBody : RawBody :=
  .json (.obj [("accountFilter", modesOnly "TURBO"), ("prompt", .str "a dog")])

/-- A piece of a prompt: text, or one of the three inline flags. -/
inductive Piece where
  | text (t : String)
  | fast
  | relax
  | turbo
  deriving DecidableEq, Repr

/-- The characters of a piece. -/
def Piece.chars : Piece → List Char
  | .text t => t.data
  | .fast => "--fast".data
  | .relax => "--relax".data
  | .turbo => "--turbo".data

/-- The characters of a text piece, nothing for a flag. -/
def Piece.kept : Piece → List Char
  | .text t => t.data
  | _ => []

/-- The three inline flags, as characters. -/
def flagList : List (List Char) := ["--fast".data, "--relax".data, "--turbo".data]

/-- A beginning of a flag: a prefix of one of the flags that is neither empty nor the whole
flag (`-`, `--`, `--f`, `--fa`, `--fas`, `--r`, ..., `--turb`). -/
def isOpening (a : List Char) : Bool :=
  !a.isEmpty && flagList.any (fun G => a.isPrefixOf G && a != G)

/-- A text in which none of the three flags occurs. -/
def flagFree (t : List Char) : Bool := flagList.all (fun G => !containsChars G t)

/-- A text that does not end in a beginning of a flag. -/
def closedEnd (t : List Char) : Bool := t.tails.all (fun a => !isOpening a)

/-- A piece in whose text, if it is text, none of the flags occurs. -/
def Piece.flagFree : Piece → Bool
  | .text t => OneHub.flagFree t.data
  | _ => true

/-- A piece whose text, if it is text, does not end in a beginning of a flag. -/
def Piece.closedEnd : Piece → Bool
  | .text t => OneHub.closedEnd t.data
  | _ => true

/-- A prompt cut into its flag occurrences and the text between them (no flag occurs in a
text piece), in which no text piece that has something after it ends in a beginning of a
flag. -/
def settled : List Piece → Bool
  | [] => true
  | [p] => p.flagFree
  | p :: q :: rest => p.flagFree && p.closedEnd && settled (q :: rest)

/-- A piece that is one of the three flags. -/
def Piece.IsFlag : Piece → Prop
  | .text _ => False
  | _ => True

/-- The prompt made of the pieces, in order. -/
def assemble (pieces : List Piece) : String := String.mk (pieces.flatMap Piece.chars)

/-- The text of the pieces with the flags left out. -/
def keptText (pieces : List Piece) : String := String.mk (pieces.flatMap Piece.kept)

/-! ## Theorems -/

theorem backoffRetry_unfold {σ : Type} (o : σ → Option BackoffErr × σ) (b : BackOffTries)
    (s : σ) :
    backoffRetry o b s =
      match o s with
      | (none, s1) => (none, s1)
      | (some (.permanent e), s1) => (some e, s1)
      | (some (.plain e), s1) =>
        if b.maxTries = 0 then (some e, s1)
        else if b.maxTries ≤ b.numTries then (some e, s1)
        else backoffRetry o { b with numTries := b.numTries + 1 } s1 := by
  rw [backoffRetry]
  split <;> simp

theorem errorsIs_msg (t : String) : errorsIs (.msg t) .ErrRecordNotFound = false := by
  simp [errorsIs]

theorem retryClosure_counted {σ : Type} (operation : σ → Option GoError × σ) (s : σ)
    (c : Nat) :
    retryClosure (counted operation) (s, c) =
      match (operation s).1 with
      | some err =>
        if errorsIs err .ErrRecordNotFound then
          (some (.permanent err), ((operation s).2, c + 1))
        else (some (.plain err), ((operation s).2, c + 1))
      | none => (none, ((operation s).2, c + 1)) := by
  unfold retryClosure counted
  cases h : operation s with
  | mk a b =>
    cases a with
    | none => simp
    | some err => cases hn : errorsIs err .ErrRecordNotFound <;> simp [IsRetryableError, hn]

theorem backoffRetry_nil {σ : Type} (o : σ → Option BackoffErr × σ) (b : BackOffTries)
    (s s1 : σ) (h : o s = (none, s1)) : backoffRetry o b s = (none, s1) := by
  rw [backoffRetry_unfold, h]

theorem backoffRetry_permanent {σ : Type} (o : σ → Option BackoffErr × σ) (b : BackOffTries)
    (s s1 : σ) (e : GoError) (h : o s = (some (.permanent e), s1)) :
    backoffRetry o b s = (some e, s1) := by
  rw [backoffRetry_unfold, h]

theorem backoffRetry_again {σ : Type} (o : σ → Option BackoffErr × σ) (b : BackOffTries)
    (s s1 : σ) (e : GoError) (h : o s = (some (.plain e), s1)) (hb : b.numTries < b.maxTries) :
    backoffRetry o b s = backoffRetry o { b with numTries := b.numTries + 1 } s1 := by
  rw [backoffRetry_unfold, h]
  have h0 : b.maxTries ≠ 0 := by omega
  have h1 : ¬ b.maxTries ≤ b.numTries := by omega
  simp [h0, h1]

theorem backoffRetry_stop {σ : Type} (o : σ → Option BackoffErr × σ) (b : BackOffTries)
    (s s1 : σ) (e : GoError) (h : o s = (some (.plain e), s1)) (hb : b.maxTries ≤ b.numTries) :
    backoffRetry o b s = (some e, s1) := by
  rw [backoffRetry_unfold, h]
  by_cases h0 : b.maxTries = 0
  · simp [h0]
  · simp [h0, hb]

/-- One round of the retry loop on a counted operation whose invocation fails with an error
that is not record-not-found, while retries are left. -/
theorem retry_round {σ : Type} (operation : σ → Option GoError × σ) (b : BackOffTries)
    (s : σ) (c : Nat) (e : GoError) (he : (operation s).1 = some e)
    (hn : errorsIs e .ErrRecordNotFound = false) (hb : b.numTries < b.maxTries) :
    backoffRetry (retryClosure (counted operation)) b (s, c) =
      backoffRetry (retryClosure (counted operation)) { b with numTries := b.numTries + 1 }
        ((operation s).2, c + 1) := by
  apply backoffRetry_again _ _ _ _ e _ hb
  rw [retryClosure_counted, he]
  simp [hn]

/-- The last round of the retry loop: no retries are left and the error is returned. -/
theorem retry_last {σ : Type} (operation : σ → Option GoError × σ) (b : BackOffTries)
    (s : σ) (c : Nat) (e : GoError) (he : (operation s).1 = some e)
    (hn : errorsIs e .ErrRecordNotFound = false) (hb : b.maxTries ≤ b.numTries) :
    backoffRetry (retryClosure (counted operation)) b (s, c) =
      (some e, ((operation s).2, c + 1)) := by
  apply backoffRetry_stop _ _ _ _ e _ hb
  rw [retryClosure_counted, he]
  simp [hn]

/-- A round in which the operation succeeds ends the loop with a nil error. -/
theorem retry_success {σ : Type} (operation : σ → Option GoError × σ) (b : BackOffTries)
    (s : σ) (c : Nat) (he : (operation s).1 = none) :
    backoffRetry (retryClosure (counted operation)) b (s, c) =
      (none, ((operation s).2, c + 1)) := by
  apply backoffRetry_nil
  rw [retryClosure_counted, he]

/-- C5: when the first invocation of the operation returns an error that is or wraps
`gorm.ErrRecordNotFound`, `Retry` invokes the operation exactly once and returns that
error; `IsRetryableError` is false on exactly the errors that are or wrap
`gorm.ErrRecordNotFound` and true on every other error. -/
theorem retry_not_found_is_terminal {σ : Type} (operation : σ → Option GoError × σ) (s : σ)
    (e : GoError) (hfirst : (operation s).1 = some e)
    (hnf : errorsIs e .ErrRecordNotFound = true) :
    Retry (counted operation) (s, 0) = (some e, ((operation s).2, 1)) ∧
    (∀ err : GoError,
      IsRetryableError (some err) = false ↔ errorsIs err .ErrRecordNotFound = true) ∧
    (∀ err : GoError,
      errorsIs err .ErrRecordNotFound = false → IsRetryableError (some err) = true) := by
  refine ⟨?_, ?_, ?_⟩
  · unfold Retry
    apply backoffRetry_permanent
    rw [retryClosure_counted, hfirst]
    simp [hnf]
  · intro err
    cases h : errorsIs err .ErrRecordNotFound <;> simp [IsRetryableError, h]
  · intro err h
    simp [IsRetryableError, h]

/-- C5, at an operation that reports a wrapped record-not-found: one invocation, and the
wrapped error comes back. -/
theorem retry_not_found_is_terminal_witness :
    Retry (counted notFoundOp) ((), 0)
      = (some (.wrap "load user" .ErrRecordNotFound), ((), 1)) :=
  (retry_not_found_is_terminal notFoundOp () (.wrap "load user" .ErrRecordNotFound)
    rfl (by decide)).1

/-- C6 as stated fails: an operation that always fails with a transient error is invoked
four times by `Retry`, not at most three times. -/
theorem retry_invokes_four_times :
    (∀ s, (alwaysBusy s).1 = some (.msg "database is locked")) ∧
    errorsIs (.msg "database is locked") .ErrRecordNotFound = false ∧
    Retry (counted alwaysBusy) ((), 0) = (some (.msg "database is locked"), ((), 4)) ∧
    ¬ (Retry (counted alwaysBusy) ((), 0)).2.2 ≤ 3 := by
  have h : Retry (counted alwaysBusy) ((), 0) = (some (.msg "database is locked"), ((), 4)) := by
    simp [Retry, WithMaxRetries, backoffRetry_unfold, retryClosure, counted, alwaysBusy,
      IsRetryableError, errorsIs]
  refine ⟨fun _ => rfl, by decide, h, ?_⟩
  rw [h]
  decide

/-- C6, amended: `Retry` makes one attempt and at most three retries. When every invocation
returns an error other than record-not-found, the operation is invoked four times and the
error of the fourth invocation is returned. When invocation number `k` (from 0, `k < 4`)
is the first to return nil, `Retry` returns nil and the operation has been invoked
`k + 1` times, not again. -/
theorem retry_one_attempt_three_retries {σ : Type} (operation : σ → Option GoError × σ)
    (s : σ) :
    ((∀ n, ∃ e, resultAt operation s n = some e ∧ errorsIs e .ErrRecordNotFound = false) →
      Retry (counted operation) (s, 0)
        = (resultAt operation s 3, (stateAfter operation s 4, 4))) ∧
    (∀ k, k < 4 →
      (∀ j, j < k →
        ∃ e, resultAt operation s j = some e ∧ errorsIs e .ErrRecordNotFound = false) →
      resultAt operation s k = none →
      Retry (counted operation) (s, 0) = (none, (stateAfter operation s (k + 1), k + 1))) := by
  constructor
  · intro h
    obtain ⟨e0, he0, hn0⟩ := h 0
    obtain ⟨e1, he1, hn1⟩ := h 1
    obtain ⟨e2, he2, hn2⟩ := h 2
    obtain ⟨e3, he3, hn3⟩ := h 3
    unfold Retry WithMaxRetries
    refine (retry_round operation _ s 0 e0 he0 hn0 (by simp)).trans ?_
    refine (retry_round operation _ (stateAfter operation s 1) 1 e1 he1 hn1 (by simp)).trans ?_
    refine (retry_round operation _ (stateAfter operation s 2) 2 e2 he2 hn2 (by simp)).trans ?_
    refine (retry_last operation _ (stateAfter operation s 3) 3 e3 he3 hn3 (by simp)).trans ?_
    rw [he3]
    rfl
  · intro k hk hbefore hnil
    unfold Retry WithMaxRetries
    have hk4 : k = 0 ∨ k = 1 ∨ k = 2 ∨ k = 3 := by omega
    rcases hk4 with rfl | rfl | rfl | rfl
    · exact retry_success operation _ s 0 hnil
    · obtain ⟨e0, he0, hn0⟩ := hbefore 0 (by omega)
      refine (retry_round operation _ s 0 e0 he0 hn0 (by simp)).trans ?_
      exact retry_success operation _ (stateAfter operation s 1) 1 hnil
    · obtain ⟨e0, he0, hn0⟩ := hbefore 0 (by omega)
      obtain ⟨e1, he1, hn1⟩ := hbefore 1 (by omega)
      refine (retry_round operation _ s 0 e0 he0 hn0 (by simp)).trans ?_
      refine (retry_round operation _ (stateAfter operation s 1) 1 e1 he1 hn1 (by simp)).trans ?_
      exact retry_success operation _ (stateAfter operation s 2) 2 hnil
    · obtain ⟨e0, he0, hn0⟩ := hbefore 0 (by omega)
      obtain ⟨e1, he1, hn1⟩ := hbefore 1 (by omega)
      obtain ⟨e2, he2, hn2⟩ := hbefore 2 (by omega)
      refine (retry_round operation _ s 0 e0 he0 hn0 (by simp)).trans ?_
      refine (retry_round operation _ (stateAfter operation s 1) 1 e1 he1 hn1 (by simp)).trans ?_
      refine (retry_round operation _ (stateAfter operation s 2) 2 e2 he2 hn2 (by simp)).trans ?_
      exact retry_success operation _ (stateAfter operation s 3) 3 hnil

/-- C6, amended, at two operations: one that always fails is invoked four times; one that
fails twice and then succeeds is invoked three times and `Retry` returns nil. -/
theorem retry_one_attempt_three_retries_witness :
    Retry (counted alwaysBusy) ((), 0)
      = (resultAt alwaysBusy () 3, (stateAfter alwaysBusy () 4, 4)) ∧
    Retry (counted failTwice) (0, 0) = (none, (stateAfter failTwice 0 3, 3)) :=
  ⟨(retry_one_attempt_three_retries alwaysBusy ()).1
      (fun _ => ⟨.msg "database is locked", rfl, by decide⟩),
   (retry_one_attempt_three_retries failTwice 0).2 2 (by decide)
      (fun j hj => ⟨.msg "database is locked", by
        have hj2 : j = 0 ∨ j = 1 := by omega
        rcases hj2 with rfl | rfl <;> rfl, by decide⟩)
      rfl⟩

/-! ### The realtime quota counter -/

theorem luaNumber_examples :
    luaNumber (2 ^ 53 + 1) = 2 ^ 53 ∧ luaNumber (2 ^ 53 + 3) = 2 ^ 53 + 4 ∧
    luaNumber maxInt64 = 2 ^ 63 ∧ luaNumber (-(2 ^ 53 + 3)) = -(2 ^ 53 + 4) ∧
    luaNumber 86400 = 86400 := by
  decide

theorem two_pow_53 : (2 : Nat) ^ 53 = 9007199254740992 := by norm_num

theorem droppedBits_div_pos (fuel m : Nat) (hf : m ≤ fuel) (hm : 0 < m) :
    0 < m / 2 ^ droppedBits fuel m := by
  induction fuel generalizing m with
  | zero => omega
  | succ fuel ih =>
    unfold droppedBits
    by_cases h : m < 2 ^ 53
    · rw [if_pos h]
      simpa using hm
    · rw [if_neg h, pow_succ, Nat.mul_comm, ← Nat.div_div_eq_div_mul]
      rw [two_pow_53] at h
      exact ih (m / 2) (by omega) (by omega)

theorem roundNat_pos (m : Nat) (hm : 0 < m) : 0 < roundNat m := by
  have hq := droppedBits_div_pos m m (le_refl m) hm
  unfold roundNat
  simp only
  split
  · exact Nat.mul_pos (by omega) (pow_pos (by decide) _)
  · exact Nat.mul_pos hq (pow_pos (by decide) _)

theorem roundNat_exact (m : Nat) (hm : m ≤ 2 ^ 53) : roundNat m = m := by
  by_cases h : m < 2 ^ 53
  · have hs : droppedBits m m = 0 := by
      cases m with
      | zero => rfl
      | succ k =>
        unfold droppedBits
        rw [if_pos h]
    simp [roundNat, hs, Nat.mod_one]
  · have : m = 2 ^ 53 := by omega
    subst this
    decide

theorem luaNumber_exact (n : Int) (h : Exact n) : luaNumber n = n := by
  unfold Exact at h
  have hn : n.natAbs ≤ 2 ^ 53 := by
    have h53 := two_pow_53
    omega
  unfold luaNumber
  rw [roundNat_exact _ hn]
  split <;> omega

theorem luaNumber_neg (n : Int) (h : n < 0) : luaNumber n < 0 := by
  have hp := roundNat_pos n.natAbs (by omega)
  unfold luaNumber
  rw [if_pos h]
  omega

theorem luaNumber_nonneg (n : Int) (h : 0 ≤ n) : ¬ luaNumber n < 0 := by
  unfold luaNumber
  rw [if_neg (by omega)]
  omega

theorem numberArg_small (host : LuaHost) (d : Int) (h1 : -(10 ^ 17) < d) (h2 : d < 10 ^ 17) :
    numberArg host d = some d := by
  unfold numberArg
  rw [if_pos ⟨h1, h2⟩]

theorem numberReply_int64 (host : LuaHost) (d : Int) (h : isInt64 d) :
    numberReply host d = d := by
  unfold isInt64 at h
  simp [numberReply, h.1, h.2]

theorem put_put (store : RedisStore) (key : String) (a b : RedisEntry) :
    (store.put key a).put key b = store.put key b := by
  funext k
  unfold RedisStore.put
  split <;> rfl

theorem put_self (store : RedisStore) (key : String) (e : RedisEntry) :
    (store.put key e) key = some e := by
  simp [RedisStore.put]

theorem script_absent_negative (host : LuaHost) (store : RedisStore) (key : String)
    (argv1 : Int) (expiration : Nat) (habs : store key = none) (hneg : argv1 < 0) :
    updateQuotaScript host store key argv1 expiration = (.ok 0, store) := by
  simp [updateQuotaScript, EXISTS, habs, luaNumber_neg argv1 hneg]

/-- The script on an absent key with an increment that is not negative and that the server
reads back as it is: the key is created, holding the increment. -/
theorem script_absent_created (host : LuaHost) (store : RedisStore) (key : String)
    (argv1 : Int) (expiration : Nat) (habs : store key = none) (h0 : 0 ≤ argv1)
    (hsmall : luaNumber argv1 < 10 ^ 17) :
    updateQuotaScript host store key argv1 expiration =
      (.ok (numberReply host (luaNumber (luaNumber argv1))),
        store.put key { value := luaNumber argv1, ttl := some expiration }) := by
  have hnn := luaNumber_nonneg argv1 h0
  have harg := numberArg_small host (luaNumber argv1) (by omega) hsmall
  have hmin : ¬ luaNumber argv1 < minInt64 := by
    unfold minInt64
    omega
  have hmax : ¬ maxInt64 < luaNumber argv1 := by
    unfold maxInt64
    omega
  simp [updateQuotaScript, EXISTS, habs, hnn, SETEX, INCRBY, harg, put_self, hmin, hmax,
    EXPIRE, put_put]

/-- The script on a present key with an increment that the server reads back as it is and
a sum within 64 bits: the increment is added, whatever the sign of the sum. -/
theorem script_present_applied (host : LuaHost) (store : RedisStore) (key : String)
    (argv1 : Int) (expiration : Nat) (e : RedisEntry) (hpres : store key = some e)
    (h1 : -(10 ^ 17) < luaNumber argv1) (h2 : luaNumber argv1 < 10 ^ 17)
    (hsum : isInt64 (e.value + luaNumber argv1)) :
    updateQuotaScript host store key argv1 expiration =
      (.ok (numberReply host (luaNumber (e.value + luaNumber argv1))),
        store.put key { value := e.value + luaNumber argv1, ttl := some expiration }) := by
  have harg := numberArg_small host (luaNumber argv1) h1 h2
  have hmin : ¬ luaNumber argv1 < minInt64 := by
    unfold minInt64
    omega
  have hmax : ¬ maxInt64 < luaNumber argv1 := by
    unfold maxInt64
    omega
  have h3 : ¬ e.value + luaNumber argv1 < minInt64 := by
    have := hsum.1
    omega
  have h4 : ¬ maxInt64 < e.value + luaNumber argv1 := by
    have := hsum.2
    omega
  simp [updateQuotaScript, EXISTS, hpres, INCRBY, harg, put_self, hmin, hmax, h3, h4, EXPIRE,
    put_put]

/-- The script on a present key when the sum leaves the 64-bit range: refused, nothing is
written. -/
theorem script_present_refused (host : LuaHost) (store : RedisStore) (key : String)
    (argv1 : Int) (expiration : Nat) (e : RedisEntry) (hpres : store key = some e)
    (h1 : -(10 ^ 17) < luaNumber argv1) (h2 : luaNumber argv1 < 10 ^ 17)
    (hout : ¬ isInt64 (e.value + luaNumber argv1)) :
    (updateQuotaScript host store key argv1 expiration).2 = store := by
  have harg := numberArg_small host (luaNumber argv1) h1 h2
  have hmin : ¬ luaNumber argv1 < minInt64 := by
    unfold minInt64
    omega
  have hmax : ¬ maxInt64 < luaNumber argv1 := by
    unfold maxInt64
    omega
  have h3 : e.value + luaNumber argv1 < minInt64 ∨ maxInt64 < e.value + luaNumber argv1 := by
    unfold isInt64 at hout
    omega
  simp [updateQuotaScript, EXISTS, hpres, INCRBY, harg, hmin, hmax, h3]

theorem exact_small (n : Int) (h : Exact n) : -(10 ^ 17) < n ∧ n < 10 ^ 17 := by
  unfold Exact at h
  constructor <;> omega

theorem exact_isInt64 (n : Int) (h : Exact n) : isInt64 n := by
  unfold Exact at h
  unfold isInt64 minInt64 maxInt64
  constructor <;> omega

theorem wrapInt64_of_isInt64 (n : Int) (h : isInt64 n) : wrapInt64 n = n := by
  unfold isInt64 minInt64 maxInt64 at h
  unfold wrapInt64
  omega

theorem exec_eq_update (host : LuaHost) (store : RedisStore) (c : QuotaCall) :
    c.exec host store = CacheUpdateUserRealtimeQuota host true store c.user c.delta := by
  cases c <;>
    simp [QuotaCall.exec, QuotaCall.user, QuotaCall.delta, CacheIncreaseUserRealtimeQuota,
      CacheDecreaseUserRealtimeQuota]

theorem exact_delta (c : QuotaCall) (h : Exact c.arg) : Exact c.delta := by
  cases c with
  | update id quota => exact h
  | increase id quota => exact h
  | decrease id quota =>
    have hneg : Exact (-quota) := by
      unfold Exact at *
      simp only [QuotaCall.arg] at h
      constructor <;> omega
    simp only [QuotaCall.delta]
    rw [wrapInt64_of_isInt64 _ (exact_isInt64 _ hneg)]
    exact hneg

/-- The entries of the server after a call with an amount of at most 2^53, in terms of the
entries before. -/
theorem update_entries (host : LuaHost) (store : RedisStore) (id quota : Int) (hq : Exact quota)
    (k : String) (e : RedisEntry)
    (h : (CacheUpdateUserRealtimeQuota host true store id quota).2 k = some e) :
    store k = some e ∨
    (store (UserRealtimeQuotaKey id) = none ∧ 0 ≤ quota ∧ e.value = quota) ∨
    (∃ old, store (UserRealtimeQuotaKey id) = some old ∧ e.value = old.value + quota) := by
  have hx := luaNumber_exact quota hq
  have hsm := exact_small quota hq
  have hstore : (CacheUpdateUserRealtimeQuota host true store id quota).2 =
      (updateQuotaScript host store (UserRealtimeQuotaKey id) quota
        UserRealtimeQuotaExpiration).2 := by
    unfold CacheUpdateUserRealtimeQuota
    simp only [Bool.not_true, Bool.false_eq_true, if_false]
    split <;> simp_all
  rw [hstore] at h
  cases hk : store (UserRealtimeQuotaKey id) with
  | none =>
    by_cases hneg : quota < 0
    · left
      rw [script_absent_negative host _ _ _ _ hk hneg] at h
      exact h
    · rw [script_absent_created host _ _ _ _ hk (by omega) (by rw [hx]; exact hsm.2)] at h
      simp only [RedisStore.put, hx] at h
      by_cases hkk : k = UserRealtimeQuotaKey id
      · simp only [hkk, if_true, Option.some.injEq] at h
        right; left
        refine ⟨rfl, by omega, ?_⟩
        rw [← h]
      · simp only [hkk, if_false] at h
        left; exact h
  | some old =>
    by_cases hsum : isInt64 (old.value + luaNumber quota)
    · rw [script_present_applied host _ _ _ _ _ hk (by rw [hx]; exact hsm.1)
        (by rw [hx]; exact hsm.2) hsum] at h
      simp only [RedisStore.put, hx] at h
      by_cases hkk : k = UserRealtimeQuotaKey id
      · simp only [hkk, if_true, Option.some.injEq] at h
        right; right
        exact ⟨old, rfl, by rw [← h]⟩
      · simp only [hkk, if_false] at h
        left; exact h
    · left
      rw [script_present_refused host _ _ _ _ _ hk (by rw [hx]; exact hsm.1)
        (by rw [hx]; exact hsm.2) hsum] at h
      exact h

theorem elapse_entries (dt : Nat) (store : RedisStore) (k : String) (e : RedisEntry)
    (h : elapse dt store k = some e) : ∃ old, store k = some old ∧ e.value = old.value := by
  unfold elapse at h
  cases hk : store k with
  | none => simp [hk] at h
  | some old =>
    simp only [hk] at h
    cases ht : old.ttl with
    | none =>
      simp only [ht] at h
      exact ⟨old, rfl, by injection h with h; rw [← h]⟩
    | some t =>
      simp only [ht] at h
      by_cases hle : t ≤ dt
      · simp [hle] at h
      · simp only [hle, if_false] at h
        exact ⟨old, rfl, by injection h with h; rw [← h]⟩

/-- A negative delta on an absent counter: 0 is returned and nothing is written. -/
theorem update_absent_negative (host : LuaHost) (store : RedisStore) (id delta : Int)
    (habs : store (UserRealtimeQuotaKey id) = none) (hneg : delta < 0) :
    CacheUpdateUserRealtimeQuota host true store id delta = ((0, none), store) := by
  simp [CacheUpdateUserRealtimeQuota, script_absent_negative host _ _ _ _ habs hneg]

/-- A delta from 0 to 2^53 on an absent counter: the counter is created holding it. -/
theorem update_absent_created (host : LuaHost) (store : RedisStore) (id delta : Int)
    (habs : store (UserRealtimeQuotaKey id) = none) (h0 : 0 ≤ delta) (h53 : delta ≤ 2 ^ 53) :
    CacheUpdateUserRealtimeQuota host true store id delta =
      ((delta, none),
        store.put (UserRealtimeQuotaKey id)
          { value := delta, ttl := some UserRealtimeQuotaExpiration }) := by
  have hq : Exact delta := ⟨by omega, h53⟩
  have hx := luaNumber_exact delta hq
  have hsm := exact_small delta hq
  unfold CacheUpdateUserRealtimeQuota
  simp only [Bool.not_true, Bool.false_eq_true, if_false]
  rw [script_absent_created host _ _ _ _ habs h0 (by rw [hx]; exact hsm.2)]
  simp only [hx, numberReply_int64 host delta (exact_isInt64 delta hq)]

/-- A delta of at most 2^53 in magnitude on a present counter, the sum within 64 bits: the
delta is added to the counter. -/
theorem update_present_applied (host : LuaHost) (store : RedisStore) (id delta : Int)
    (e : RedisEntry) (hpres : store (UserRealtimeQuotaKey id) = some e) (hq : Exact delta)
    (hsum : isInt64 (e.value + delta)) :
    CacheUpdateUserRealtimeQuota host true store id delta =
      ((numberReply host (luaNumber (e.value + delta)), none),
        store.put (UserRealtimeQuotaKey id)
          { value := e.value + delta, ttl := some UserRealtimeQuotaExpiration }) := by
  have hx := luaNumber_exact delta hq
  have hsm := exact_small delta hq
  unfold CacheUpdateUserRealtimeQuota
  simp only [Bool.not_true, Bool.false_eq_true, if_false]
  rw [script_present_applied host _ _ _ _ _ hpres (by rw [hx]; exact hsm.1)
    (by rw [hx]; exact hsm.2) (by rw [hx]; exact hsum)]
  simp only [hx]

/-- C1 as stated fails: on the empty server the delta 2^53 + 1 creates the counter holding
2^53 and returns 2^53, not the delta: the script holds its increment in a double. (The
result is the same on every server; it is computed here on one of the older kind.) -/
theorem update_rounds_large_delta :
    CacheUpdateUserRealtimeQuota oldServer true emptyStore 7 (2 ^ 53 + 1) =
      ((2 ^ 53, none),
        emptyStore.put (UserRealtimeQuotaKey 7)
          { value := 2 ^ 53, ttl := some UserRealtimeQuotaExpiration }) ∧
    (2 ^ 53 : Int) ≠ 2 ^ 53 + 1 := by
  have h1 : luaNumber (2 ^ 53 + 1) = 2 ^ 53 := by decide
  have h2 : luaNumber (2 ^ 53) = 2 ^ 53 := by decide
  refine ⟨?_, by decide⟩
  unfold CacheUpdateUserRealtimeQuota
  simp only [Bool.not_true, Bool.false_eq_true, if_false]
  rw [script_absent_created oldServer emptyStore _ _ _ rfl (by decide) (by rw [h1]; decide)]
  simp only [h1, h2, numberReply_int64 oldServer (2 ^ 53) (by decide)]

/-- The largest Go `int` as delta on an absent counter: the script holds it as 2^63, which
`INCRBY` does not take, after `SET` has created the counter at 0; the call returns 0 and
the wrapped error. -/
theorem update_at_maxInt64 (host : LuaHost) :
    CacheUpdateUserRealtimeQuota host true emptyStore 7 maxInt64 =
      ((0, some (.wrap "更新用户配额失败" (.msg "ERR value is not an integer or out of range"))),
        emptyStore.put (UserRealtimeQuotaKey 7)
          { value := 0, ttl := some UserRealtimeQuotaExpiration }) := by
  have h1 : luaNumber maxInt64 = 2 ^ 63 := by decide
  simp [CacheUpdateUserRealtimeQuota, updateQuotaScript, EXISTS, emptyStore, h1, SETEX, INCRBY,
    numberArg]

/-- C1, amended: with the fast-path layer enabled, on a user whose realtime counter is
absent, a positive delta of at most 2^53 creates the counter holding exactly delta with the
realtime expiration window and returns delta; a negative delta returns 0 and leaves the
store unchanged. -/
theorem update_on_absent_counter (host : LuaHost) (store : RedisStore) (id delta : Int)
    (habs : store (UserRealtimeQuotaKey id) = none) :
    (0 < delta → delta ≤ 2 ^ 53 →
      CacheUpdateUserRealtimeQuota host true store id delta =
        ((delta, none),
          store.put (UserRealtimeQuotaKey id)
            { value := delta, ttl := some UserRealtimeQuotaExpiration })) ∧
    (delta < 0 →
      CacheUpdateUserRealtimeQuota host true store id delta = ((0, none), store)) :=
  ⟨fun hpos h53 => update_absent_created host store id delta habs (le_of_lt hpos) h53,
   fun hneg => update_absent_negative host store id delta habs hneg⟩

/-- C1, amended, on the empty server for user 7: delta 300 creates the counter at 300 with
a day to live; delta -300 returns 0 and changes nothing. -/
theorem update_on_absent_counter_witness :
    CacheUpdateUserRealtimeQuota oldServer true emptyStore 7 300 =
        ((300, none),
          emptyStore.put (UserRealtimeQuotaKey 7)
            { value := 300, ttl := some UserRealtimeQuotaExpiration }) ∧
    CacheUpdateUserRealtimeQuota oldServer true emptyStore 7 (-300) = ((0, none), emptyStore) :=
  ⟨(update_on_absent_counter oldServer emptyStore 7 300 rfl).1 (by decide) (by decide),
   (update_on_absent_counter oldServer emptyStore 7 (-300) rfl).2 (by decide)⟩

/-- C2 as stated fails: on the empty server, after an increase by 5, a decrease by 10 of
user 1 is not rejected: it returns -5 with no error and leaves the counter, present,
at -5, in a reachable state. And after increases by 2^53 and by 3, a decrease by 2^53 + 3,
which asks for no more than the counter holds, takes the double 2^53 + 4 and leaves -1. -/
theorem realtime_counter_goes_negative :
    (QuotaCall.increase 1 5).run oldServer emptyStore = counterAtFive ∧
    (QuotaCall.decrease 1 10).exec oldServer counterAtFive =
      ((-5, none),
        emptyStore.put (UserRealtimeQuotaKey 1)
          { value := -5, ttl := some UserRealtimeQuotaExpiration }) ∧
    Reachable oldServer ((QuotaCall.decrease 1 10).run oldServer counterAtFive) ∧
    counterAtLarge (UserRealtimeQuotaKey 1) =
      some { value := 2 ^ 53 + 3, ttl := some UserRealtimeQuotaExpiration } ∧
    ((QuotaCall.decrease 1 (2 ^ 53 + 3)).run oldServer counterAtLarge) (UserRealtimeQuotaKey 1) =
      some { value := -1, ttl := some UserRealtimeQuotaExpiration } := by
  have h1 : (QuotaCall.increase 1 5).run oldServer emptyStore = counterAtFive := by
    unfold QuotaCall.run
    rw [exec_eq_update, update_absent_created oldServer emptyStore _ _ rfl (by decide) (by decide)]
    rfl
  have h2 : (QuotaCall.decrease 1 10).exec oldServer counterAtFive =
      ((-5, none),
        emptyStore.put (UserRealtimeQuotaKey 1)
          { value := -5, ttl := some UserRealtimeQuotaExpiration }) := by
    rw [exec_eq_update]
    have hd : (QuotaCall.decrease 1 10).delta = -10 := by decide
    have hu : (QuotaCall.decrease 1 10).user = 1 := rfl
    rw [hd, hu, update_present_applied oldServer counterAtFive 1 (-10)
      { value := 5, ttl := some UserRealtimeQuotaExpiration } (put_self _ _ _) (by decide)
      (by decide)]
    have hl : luaNumber ((5 : Int) + -10) = -5 := by decide
    simp only [hl, numberReply_int64 oldServer (-5) (by decide)]
    unfold counterAtFive
    rw [put_put]
    rfl
  have h3 : (QuotaCall.increase 1 (2 ^ 53)).run oldServer emptyStore =
      emptyStore.put (UserRealtimeQuotaKey 1)
        { value := 2 ^ 53, ttl := some UserRealtimeQuotaExpiration } := by
    unfold QuotaCall.run
    rw [exec_eq_update, update_absent_created oldServer emptyStore _ _ rfl (by decide) (by decide)]
    rfl
  have h4 : counterAtLarge = emptyStore.put (UserRealtimeQuotaKey 1)
      { value := 2 ^ 53 + 3, ttl := some UserRealtimeQuotaExpiration } := by
    unfold counterAtLarge
    rw [h3]
    unfold QuotaCall.run
    rw [exec_eq_update]
    have hu : (QuotaCall.increase 1 3).user = 1 := rfl
    have hd : (QuotaCall.increase 1 3).delta = 3 := rfl
    rw [hu, hd, update_present_applied oldServer _ 1 3
      { value := 2 ^ 53, ttl := some UserRealtimeQuotaExpiration } (put_self _ _ _) (by decide)
      (by decide)]
    simp only [put_put]
  refine ⟨h1, h2, ?_, ?_, ?_⟩
  · rw [← h1]
    exact Reachable.call _ _ (by decide) (Reachable.call _ _ (by decide) Reachable.empty)
  · rw [h4]
    exact put_self _ _ _
  · rw [h4]
    unfold QuotaCall.run
    rw [exec_eq_update]
    have hu : (QuotaCall.decrease 1 (2 ^ 53 + 3)).user = 1 := rfl
    have hd : (QuotaCall.decrease 1 (2 ^ 53 + 3)).delta = -(2 ^ 53 + 3) := by decide
    have hl : luaNumber (-(2 ^ 53 + 3)) = -(2 ^ 53 + 4) := by decide
    rw [hu, hd]
    unfold CacheUpdateUserRealtimeQuota
    simp only [Bool.not_true, Bool.false_eq_true, if_false]
    rw [script_present_applied oldServer _ _ _ _
      { value := 2 ^ 53 + 3, ttl := some UserRealtimeQuotaExpiration } (put_self _ _ _)
      (by rw [hl]; decide) (by rw [hl]; decide) (by rw [hl]; decide)]
    simp only [hl, put_put]
    exact put_self _ _ _

/-- C2, amended: a decrement on an absent counter is rejected: it returns 0 with no error
and leaves the store unchanged. A decrement of at most 2^53 on a present counter holding v
is not checked against v: whenever v + delta fits 64 bits it is applied with no error and
the counter becomes v + delta with a fresh expiration window, also when that is below
zero. In every state reached from the empty store by calls with amounts of at most 2^53 in
magnitude, none of which takes more out of a present counter than it holds, every counter
that is present is at least 0. -/
theorem realtime_counter_nonnegative_when_covered (host : LuaHost) :
    (∀ store, ReachableCovered host store → ∀ k e, store k = some e → 0 ≤ e.value) ∧
    (∀ (store : RedisStore) (c : QuotaCall), c.delta < 0 →
      store (UserRealtimeQuotaKey c.user) = none →
      c.exec host store = ((0, none), store)) ∧
    (∀ (store : RedisStore) (c : QuotaCall) (e : RedisEntry), Exact c.arg → c.delta < 0 →
      store (UserRealtimeQuotaKey c.user) = some e → isInt64 (e.value + c.delta) →
      (c.exec host store).1.2 = none ∧
      (c.exec host store).2 =
        store.put (UserRealtimeQuotaKey c.user)
          { value := e.value + c.delta, ttl := some UserRealtimeQuotaExpiration }) := by
  refine ⟨?_, ?_, ?_⟩
  · intro store hr
    induction hr with
    | empty => intro k e h; simp [emptyStore] at h
    | call store c harg hcov _ ih =>
      intro k e h
      unfold QuotaCall.run at h
      rw [exec_eq_update] at h
      rcases update_entries host store c.user c.delta (exact_delta c harg) k e h with
        h1 | ⟨_, h0, hv⟩ | ⟨old, ho, hv⟩
      · exact ih k e h1
      · omega
      · have := hcov old ho
        omega
    | wait store dt _ ih =>
      intro k e h
      obtain ⟨old, ho, hv⟩ := elapse_entries dt store k e h
      have := ih k old ho
      omega
  · intro store c hneg habs
    rw [exec_eq_update]
    exact update_absent_negative host store c.user c.delta habs hneg
  · intro store c e harg hneg hpres hsum
    rw [exec_eq_update,
      update_present_applied host store c.user c.delta e hpres (exact_delta c harg) hsum]
    exact ⟨rfl, rfl⟩

/-- C2, amended, at concrete calls: a decrease by 300 on the empty server is rejected; a
decrease by 10 of a counter holding 5 is applied and leaves 5 - 10. -/
theorem realtime_counter_nonnegative_when_covered_witness :
    (QuotaCall.decrease 7 300).exec oldServer emptyStore = ((0, none), emptyStore) ∧
    ((QuotaCall.decrease 1 10).exec oldServer counterAtFive).2 =
      counterAtFive.put (UserRealtimeQuotaKey (QuotaCall.decrease 1 10).user)
        { value := (5 : Int) + (QuotaCall.decrease 1 10).delta,
          ttl := some UserRealtimeQuotaExpiration } :=
  ⟨(realtime_counter_nonnegative_when_covered oldServer).2.1 emptyStore
      (QuotaCall.decrease 7 300) (by decide) rfl,
   ((realtime_counter_nonnegative_when_covered oldServer).2.2 counterAtFive
      (QuotaCall.decrease 1 10) { value := 5, ttl := some UserRealtimeQuotaExpiration }
      (by decide) (by decide) (put_self _ _ _) (by decide)).2⟩

/-! ### The quota read and the coalescing cache -/

/-- C3 fails on the code: with the fast-path store refusing both the read and the seeding
write while the durable read gives 500000, `CacheGetUserQuota` logs the seeding error and
returns 500000 together with that error, not with a nil error. -/
theorem cache_get_user_quota_returns_seed_error :
    CacheGetUserQuota true 0 redisDown 7 =
      { quota := 500000
        err := some (.msg "dial tcp: connection refused")
        logged := [{ text := "Redis set user quota error: "
                     err := .msg "dial tcp: connection refused" }] } := by
  decide

/-- C4 fails on the code: with no entry under the key and an origin function that fails
with `user 7 not found`, the result arriving in time, `GetOrSetCache` returns the type
assertion error instead of the error of the origin function; the cache stays without an
entry for the key. -/
theorem get_or_set_cache_masks_origin_error (refuse : String → String → Option GoError) :
    (GetOrSetCache refuse (fun _ => none : KvCache String) "user_name:7" 0
        ("", some (.msg "user 7 not found")) true).1 = ("", some (.msg "类型断言失败")) ∧
    (GetOrSetCache refuse (fun _ => none : KvCache String) "user_name:7" 0
        ("", some (.msg "user 7 not found")) true).2 "user_name:7" = none := by
  constructor <;> rfl

/-- The parser of cached quota texts at its borders: a value outside `int` gives the
nearest bound and a range error, a text that is no number gives 0 and a syntax error. -/
theorem Atoi_examples :
    Atoi "500000" = (500000, none) ∧ Atoi "-42" = (-42, none) ∧
    Atoi "99999999999999999999" =
      (maxInt64, some (.numError "Atoi" "99999999999999999999" .ErrRange)) ∧
    Atoi "-9223372036854775809" =
      (minInt64, some (.numError "Atoi" "-9223372036854775809" .ErrRange)) ∧
    Atoi "12a" = (0, some (.numError "Atoi" "12a" .ErrSyntax)) ∧
    Atoi "" = (0, some (.numError "Atoi" "" .ErrSyntax)) := by
  decide

/-! ### Bulk channel creation -/

theorem splitChars_line (w : List Char) (h : '\n' ∉ w) : splitChars '\n' w = [w] := by
  induction w with
  | nil => rfl
  | cons c cs ih =>
    have hc : c ≠ '\n' := fun hc => h (by simp [hc])
    have hcs : '\n' ∉ cs := fun hcs => h (by simp [hcs])
    simp [splitChars, hc, ih hcs]

theorem splitChars_line_append (w rest : List Char) (h : '\n' ∉ w) :
    splitChars '\n' (w ++ '\n' :: rest) = w :: splitChars '\n' rest := by
  induction w with
  | nil => simp [splitChars]
  | cons c cs ih =>
    have hc : c ≠ '\n' := fun hc => h (by simp [hc])
    have hcs : '\n' ∉ cs := fun hcs => h (by simp [hcs])
    simp [splitChars, hc, ih hcs]

theorem joinLines_cons_cons (l l2 : String) (rest : List String) :
    (joinLines (l :: l2 :: rest)).data = l.data ++ '\n' :: (joinLines (l2 :: rest)).data := by
  simp [joinLines, String.data_append]

/-- Splitting a blob of lines gives the lines back. -/
theorem SplitLines_joinLines (ls : List String) (hne : ls ≠ []) (h : ∀ l ∈ ls, IsLine l) :
    SplitLines (joinLines ls) = ls := by
  induction ls with
  | nil => exact absurd rfl hne
  | cons l rest ih =>
    have hl : '\n' ∉ l.data := (h l (by simp)).2
    cases rest with
    | nil => simp [SplitLines, joinLines, splitChars_line _ hl]
    | cons l2 rest2 =>
      have ih2 := ih (by simp) (fun x hx => h x (by simp [hx]))
      unfold SplitLines at ih2 ⊢
      rw [joinLines_cons_cons, splitChars_line_append _ _ hl, List.map_cons, ih2]

theorem joinLines_ne_empty (ls : List String) (hne : ls ≠ []) (h : ∀ l ∈ ls, IsLine l) :
    joinLines ls ≠ "" := by
  cases ls with
  | nil => exact absurd rfl hne
  | cons l rest =>
    have hl : l ≠ "" := (h l (by simp)).1
    have hd : l.data ≠ [] := fun hd => hl (by
      cases l
      simp_all)
    cases rest with
    | nil => simpa [joinLines] using hl
    | cons l2 rest2 =>
      intro hj
      have := congrArg String.data hj
      rw [joinLines_cons_cons] at this
      cases hld : l.data with
      | nil => exact hd hld
      | cons c cs => simp [hld] at this

/-- The record at position `j` of the loop started at position `i`, when no key is empty. -/
theorem channelLoop_getElem? (channel : Channel) (baseUrls : List String) (keys : List String)
    (h : ∀ k ∈ keys, k ≠ "") (i j : Nat) :
    (channelLoop channel baseUrls i keys)[j]? =
      (keys[j]?).map (localChannel channel baseUrls (i + j)) := by
  induction keys generalizing i j with
  | nil => simp [channelLoop]
  | cons k rest ih =>
    have hk : k ≠ "" := h k (by simp)
    have hrest : ∀ x ∈ rest, x ≠ "" := fun x hx => h x (by simp [hx])
    cases j with
    | zero => simp [channelLoop, hk]
    | succ j =>
      simp only [channelLoop, hk, if_false, List.getElem?_cons_succ]
      rw [ih hrest (i + 1) j]
      have hij : i + 1 + j = i + (j + 1) := by omega
      rw [hij]

theorem channelLoop_length (channel : Channel) (baseUrls : List String) (keys : List String)
    (h : ∀ k ∈ keys, k ≠ "") (i : Nat) :
    (channelLoop channel baseUrls i keys).length = keys.length := by
  induction keys generalizing i with
  | nil => simp [channelLoop]
  | cons k rest ih =>
    have hk : k ≠ "" := h k (by simp)
    simp [channelLoop, hk, ih (fun x hx => h x (by simp [hx]))]

theorem localChannel_Key (channel : Channel) (baseUrls : List String) (index : Nat)
    (key : String) : (localChannel channel baseUrls index key).Key = key := by
  unfold localChannel
  cases baseUrls[index]? with
  | none => cases baseUrls <;> rfl
  | some u =>
    by_cases hu : u = ""
    · simp only [hu, ne_eq, not_true_eq_false, if_false]
      cases baseUrls <;> rfl
    · simp [hu]

theorem localChannel_Name (channel : Channel) (baseUrls : List String) (index : Nat)
    (key : String) :
    (localChannel channel baseUrls index key).Name = siblingName channel.Name index := by
  have hn : (if index > 0 then channel.Name ++ "_" ++ Itoa (index + 1) else channel.Name)
      = siblingName channel.Name index := by
    unfold siblingName
    by_cases h0 : index = 0
    · simp [h0]
    · have : index > 0 := by omega
      simp [h0, this]
  unfold localChannel
  rw [hn]
  cases baseUrls[index]? with
  | none => cases baseUrls <;> rfl
  | some u =>
    by_cases hu : u = ""
    · simp only [hu, ne_eq, not_true_eq_false, if_false]
      cases baseUrls <;> rfl
    · simp [hu]

/-- The URL a record is bound to when the URL list has no empty entry and is not empty:
its own URL while there is one, the first URL after that. -/
theorem localChannel_BaseURL (channel : Channel) (urls : List String) (index : Nat)
    (key : String) (hurls : ∀ u ∈ urls, u ≠ "") (hne : urls ≠ []) :
    (localChannel channel urls index key).BaseURL =
      if index < urls.length then urls[index]? else urls[0]? := by
  unfold localChannel
  by_cases hi : index < urls.length
  · have hget : urls[index]? = some urls[index] := List.getElem?_eq_getElem hi
    have hu : urls[index] ≠ "" := hurls _ (List.getElem_mem hi)
    simp [hi, hget, hu]
  · have hget : urls[index]? = none := List.getElem?_eq_none (by omega)
    cases urls with
    | nil => exact absurd rfl hne
    | cons u0 rest =>
      have hlen : ¬ index < rest.length + 1 := by
        simpa only [List.length_cons] using hi
      rw [hget]
      simp [hlen]

/-- The records built for a blob of keys, with the URL list the blob of URLs gives. -/
theorem AddChannel_of_blobs (channel : Channel) (now : Int) (keys urls : List String)
    (hK : keys ≠ []) (hkeys : ∀ k ∈ keys, IsLine k) (hM : urls ≠ [])
    (hurls : ∀ u ∈ urls, IsLine u) (hblob : channel.Key = joinLines keys)
    (hub : channel.BaseURL = some (joinLines urls)) :
    AddChannel channel now = channelLoop { channel with CreatedTime := now } urls 0 keys := by
  unfold AddChannel
  simp only [hblob, hub, SplitLines_joinLines keys hK hkeys, SplitLines_joinLines urls hM hurls,
    joinLines_ne_empty urls hM hurls, ne_eq, not_false_eq_true, if_true]

theorem isLine_ne_empty (ls : List String) (h : ∀ l ∈ ls, IsLine l) : ∀ l ∈ ls, l ≠ "" :=
  fun l hl => (h l hl).1

/-- The records built for a blob of keys, whatever the URL field holds. -/
theorem AddChannel_of_keys (channel : Channel) (now : Int) (keys : List String)
    (hK : keys ≠ []) (hkeys : ∀ k ∈ keys, IsLine k) (hblob : channel.Key = joinLines keys) :
    ∃ baseUrls : List String,
      AddChannel channel now = channelLoop { channel with CreatedTime := now } baseUrls 0 keys := by
  unfold AddChannel
  simp only [hblob, SplitLines_joinLines keys hK hkeys]
  exact ⟨_, rfl⟩

/-- C7: for every name and every K >= 1 non-empty keys submitted as one newline-separated
blob, `AddChannel` builds exactly K records, in order; the record at 0-based position i has
the key at position i and is named `name` for the first and `name_<i+1>` after it; with a
single URL every record is bound to it, and with K non-empty URLs the record at position i
is bound to the URL at position i. -/
theorem add_channel_bulk (channel : Channel) (now : Int) (keys : List String)
    (hK : keys ≠ []) (hkeys : ∀ k ∈ keys, IsLine k) (hblob : channel.Key = joinLines keys) :
    (AddChannel channel now).length = keys.length ∧
    (∀ (i : Nat) (key : String), keys[i]? = some key →
      ∃ r : Channel, (AddChannel channel now)[i]? = some r ∧ r.Key = key ∧
        r.Name = siblingName channel.Name i) ∧
    (∀ u, IsLine u → channel.BaseURL = some u →
      ∀ r ∈ AddChannel channel now, r.BaseURL = some u) ∧
    (∀ urls : List String, urls.length = keys.length → (∀ u ∈ urls, IsLine u) →
      channel.BaseURL = some (joinLines urls) →
      ∀ (i : Nat) (u : String), urls[i]? = some u →
        ∃ r : Channel, (AddChannel channel now)[i]? = some r ∧ r.BaseURL = some u) := by
  have hkne := isLine_ne_empty keys hkeys
  refine ⟨?_, ?_, ?_, ?_⟩
  · obtain ⟨baseUrls, hb⟩ := AddChannel_of_keys channel now keys hK hkeys hblob
    rw [hb]
    exact channelLoop_length _ _ _ hkne 0
  · obtain ⟨baseUrls, hb⟩ := AddChannel_of_keys channel now keys hK hkeys hblob
    rw [hb]
    intro i key hi
    refine ⟨localChannel { channel with CreatedTime := now } baseUrls (0 + i) key, ?_, ?_, ?_⟩
    · rw [channelLoop_getElem? _ _ _ hkne, hi]
      rfl
    · exact localChannel_Key _ _ _ _
    · rw [localChannel_Name]
      simp
  · intro u hu hub r hr
    have hub1 : channel.BaseURL = some (joinLines [u]) := by simpa [joinLines] using hub
    have hurls : ∀ x ∈ [u], IsLine x := by simpa using hu
    rw [AddChannel_of_blobs channel now keys [u] hK hkeys (by simp) hurls hblob hub1] at hr
    obtain ⟨i, hi⟩ := List.getElem?_of_mem hr
    rw [channelLoop_getElem? _ _ _ hkne] at hi
    cases hk : keys[i]? with
    | none => simp [hk] at hi
    | some key =>
      rw [hk] at hi
      have hr2 : localChannel { channel with CreatedTime := now } [u] (0 + i) key = r := by
        simpa using hi
      rw [← hr2, localChannel_BaseURL _ _ _ _ (isLine_ne_empty _ hurls) (by simp)]
      by_cases h0 : 0 + i < [u].length
      · have hi0 : i = 0 := by
          simp only [List.length_singleton] at h0
          omega
        simp [hi0]
      · rw [if_neg h0]
        rfl
  · intro urls hlen hurls hub i u hi
    have hM : urls ≠ [] := by
      intro h
      rw [h] at hlen
      exact hK (List.length_eq_zero.mp hlen.symm)
    rw [AddChannel_of_blobs channel now keys urls hK hkeys hM hurls hblob hub]
    have hilt : i < urls.length := by
      by_contra hcon
      rw [List.getElem?_eq_none (by omega)] at hi
      exact Option.noConfusion hi
    have hik : i < keys.length := by omega
    refine ⟨localChannel { channel with CreatedTime := now } urls (0 + i) keys[i], ?_, ?_⟩
    · rw [channelLoop_getElem? _ _ _ hkne, List.getElem?_eq_getElem hik]
      rfl
    · rw [localChannel_BaseURL _ _ _ _ (isLine_ne_empty _ hurls) hM]
      simp [hilt, hi]

/-- C7, at keys `k1`, `k2`, `k3`: three records, all bound to `u1` when the URL field is
`u1`, and the third bound to `u3` when the URL field holds `u1`, `u2`, `u3`. -/
theorem add_channel_bulk_witness :
    (AddChannel threeKeysOneUrl 5).length = ["k1", "k2", "k3"].length ∧
    (∃ r : Channel, (AddChannel threeKeysOneUrl 5)[2]? = some r ∧ r.Key = "k3" ∧
      r.Name = siblingName threeKeysOneUrl.Name 2) ∧
    (∀ r ∈ AddChannel threeKeysOneUrl 5, r.BaseURL = some "u1") ∧
    (∃ r : Channel, (AddChannel threeKeysThreeUrls 5)[2]? = some r ∧ r.BaseURL = some "u3") :=
  ⟨(add_channel_bulk threeKeysOneUrl 5 ["k1", "k2", "k3"] (by decide) (by decide) rfl).1,
   (add_channel_bulk threeKeysOneUrl 5 ["k1", "k2", "k3"] (by decide) (by decide) rfl).2.1
      2 "k3" rfl,
   (add_channel_bulk threeKeysOneUrl 5 ["k1", "k2", "k3"] (by decide) (by decide) rfl).2.2.1
      "u1" (by decide) rfl,
   (add_channel_bulk threeKeysThreeUrls 5 ["k1", "k2", "k3"] (by decide) (by decide) rfl).2.2.2
      ["u1", "u2", "u3"] rfl (by decide) rfl 2 "u3" rfl⟩

/-- The three records of the example of the specification, computed. -/
theorem add_channel_three_keys_one_url :
    AddChannel threeKeysOneUrl 5 =
      [{ Name := "name", Key := "k1", BaseURL := some "u1", CreatedTime := 5 },
       { Name := "name_2", Key := "k2", BaseURL := some "u1", CreatedTime := 5 },
       { Name := "name_3", Key := "k3", BaseURL := some "u1", CreatedTime := 5 }] := by
  decide

/-- C8 as stated fails: with three keys and the two URLs `u1`, `u2` (K = 3, M = 2), the
third record (i = 2) is bound to `u1`, the first URL, while `url[min(i, M-1)]` is `u2`. -/
theorem add_channel_third_sibling_gets_first_url :
    SplitLines threeKeysTwoUrls.Key = ["k1", "k2", "k3"] ∧
    ((AddChannel threeKeysTwoUrls 5)[2]?).map Channel.BaseURL = some (some "u1") ∧
    ["u1", "u2"][min 2 (2 - 1)]? = some "u2" := by
  decide

/-- C8, amended: with K non-empty keys and M non-empty URLs, 1 <= M <= K, the record at
0-based position i is bound to key[i], and to url[i] when i < M and to url[0] otherwise. -/
theorem add_channel_url_binding (channel : Channel) (now : Int) (keys urls : List String)
    (hkeys : ∀ k ∈ keys, IsLine k) (hurls : ∀ u ∈ urls, IsLine u)
    (hM : 1 ≤ urls.length) (hMK : urls.length ≤ keys.length)
    (hblob : channel.Key = joinLines keys) (hub : channel.BaseURL = some (joinLines urls)) :
    (AddChannel channel now).length = keys.length ∧
    ∀ (i : Nat) (key : String), keys[i]? = some key →
      ∃ r : Channel, (AddChannel channel now)[i]? = some r ∧ r.Key = key ∧
        r.BaseURL = if i < urls.length then urls[i]? else urls[0]? := by
  have hkne := isLine_ne_empty keys hkeys
  have hune : urls ≠ [] := by
    intro h
    rw [h] at hM
    simp at hM
  have hK : keys ≠ [] := by
    intro h
    rw [h] at hMK
    simp only [List.length_nil] at hMK
    omega
  rw [AddChannel_of_blobs channel now keys urls hK hkeys hune hurls hblob hub]
  refine ⟨channelLoop_length _ _ _ hkne 0, ?_⟩
  intro i key hi
  refine ⟨localChannel { channel with CreatedTime := now } urls (0 + i) key, ?_, ?_, ?_⟩
  · rw [channelLoop_getElem? _ _ _ hkne, hi]
    rfl
  · exact localChannel_Key _ _ _ _
  · rw [localChannel_BaseURL _ _ _ _ (isLine_ne_empty _ hurls) hune]
    simp

/-- C8, amended, at three keys and two URLs: the third record has key `k3` and the URL
at position 0. -/
theorem add_channel_url_binding_witness :
    ∃ r : Channel, (AddChannel threeKeysTwoUrls 5)[2]? = some r ∧ r.Key = "k3" ∧
      r.BaseURL = if 2 < ["u1", "u2"].length then ["u1", "u2"][2]? else ["u1", "u2"][0]? :=
  (add_channel_url_binding threeKeysTwoUrls 5 ["k1", "k2", "k3"] ["u1", "u2"]
    (by decide) (by decide) (by decide) (by decide) rfl rfl).2 2 "k3" rfl

/-! ### The Midjourney request transform -/

theorem GoMap.get_delete_ne (m : GoMap) (k key : String) (h : key ≠ k) :
    (GoMap.delete m k).get key = m.get key := by
  induction m with
  | nil => rfl
  | cons kv rest ih =>
    obtain ⟨a, v⟩ := kv
    unfold GoMap.delete at ih ⊢
    by_cases ha : a = k
    · have hne : a ≠ key := fun hak => h (hak ▸ ha)
      rw [List.filter_cons_of_neg (by simp [ha])]
      simp [GoMap.get, hne, ih]
    · rw [List.filter_cons_of_pos (by simp [ha])]
      by_cases hak : a = key <;> simp [GoMap.get, hak, ih]

theorem GoMap.get_set_same (m : GoMap) (k : String) (v : JSON) : (GoMap.set m k v).get k = some v := by
  simp [GoMap.set, GoMap.get]

theorem GoMap.get_set_ne (m : GoMap) (k key : String) (v : JSON) (h : key ≠ k) :
    (GoMap.set m k v).get key = m.get key := by
  have hk : k ≠ key := fun hk => h hk.symm
  simp [GoMap.set, GoMap.get, hk, GoMap.get_delete_ne m k key h]

theorem rewritePrompt_get_ne (m : GoMap) (key : String) (h : key ≠ "prompt") :
    ∃ m2, rewritePrompt (some m) = some m2 ∧ m2.get key = m.get key := by
  have hform : rewritePrompt (some m) =
      match m.get "prompt" with
      | some (.str prompt) => some (m.set "prompt" (.str (stripFlags prompt)))
      | _ => some m := rfl
  rw [hform]
  cases m.get "prompt" with
  | none => exact ⟨m, rfl, rfl⟩
  | some j =>
    cases j with
    | str p => exact ⟨_, rfl, GoMap.get_set_ne m "prompt" key _ h⟩
    | null => exact ⟨m, rfl, rfl⟩
    | bool b => exact ⟨m, rfl, rfl⟩
    | num t => exact ⟨m, rfl, rfl⟩
    | arr xs => exact ⟨m, rfl, rfl⟩
    | obj kvs => exact ⟨m, rfl, rfl⟩

/-- The account filter that `Send` puts into the outbound body of a request that is not a
GET and whose body is a JSON object. -/
theorem Send_accountFilter (unicodeUpper : Char → Char) (MjNotifyEnabled : Bool)
    (Method mjModel : String) (members : List (String × JSON)) (hm : Method ≠ "GET") :
    (Send unicodeUpper MjNotifyEnabled Method mjModel (.json (.obj members))).accountFilter =
      some (modesOnly (ToUpper unicodeUpper (if mjModel = "" then "fast" else mjModel))) := by
  unfold Send
  simp only [hm, ne_eq, not_false_eq_true, if_true]
  cases MjNotifyEnabled with
  | true =>
    obtain ⟨m2, h2, hg⟩ := rewritePrompt_get_ne
      (GoMap.set (GoMap.delete (GoMap.ofMembers members) "accountFilter") "accountFilter"
        (.obj [("modes", .arr [.str (ToUpper unicodeUpper (if mjModel = "" then "fast" else mjModel))])]))
      "accountFilter" (by decide)
    simp only [Bool.not_true, Bool.false_eq_true, if_false, h2, SendBody.accountFilter, hg,
      GoMap.get_set_same, modesOnly]
  | false =>
    obtain ⟨m2, h2, hg⟩ := rewritePrompt_get_ne
      (GoMap.delete (GoMap.set (GoMap.delete (GoMap.ofMembers members) "accountFilter")
        "accountFilter"
        (.obj [("modes", .arr [.str (ToUpper unicodeUpper (if mjModel = "" then "fast" else mjModel))])]))
        "notifyHook")
      "accountFilter" (by decide)
    simp only [Bool.not_false, if_true, h2, SendBody.accountFilter, hg, modesOnly]
    rw [GoMap.get_delete_ne _ _ _ (by decide), GoMap.get_set_same]

theorem ToUpper_fast (unicodeUpper : Char → Char) : ToUpper unicodeUpper "fast" = "FAST" := by
  rfl

/-- The outbound prompt for the body `{"prompt": "a cat --fast"}`. -/
theorem Send_catBody_prompt (unicodeUpper : Char → Char) (MjNotifyEnabled : Bool) :
    (Send unicodeUpper MjNotifyEnabled "POST" "" catBody).prompt = some "a cat " := by
  cases MjNotifyEnabled <;>
    simp [Send, catBody, GoMap.ofMembers, GoMap.set, GoMap.delete, GoMap.get, rewritePrompt,
      SendBody.prompt, stripFlags, Replace, replaceChars]

/-- The prompt that `Send` forwards for a request that is not a GET and whose JSON object
has the string `p` under `prompt`: the result of the three replacements on `p`. -/
theorem Send_prompt (unicodeUpper : Char → Char) (MjNotifyEnabled : Bool)
    (Method mjModel : String) (members : List (String × JSON)) (p : String)
    (hm : Method ≠ "GET") (hp : (GoMap.ofMembers members).get "prompt" = some (.str p)) :
    (Send unicodeUpper MjNotifyEnabled Method mjModel (.json (.obj members))).prompt =
      some (stripFlags p) := by
  have hrew : ∀ m : GoMap, m.get "prompt" = some (.str p) →
      (SendBody.marshal (rewritePrompt (some m))).prompt = some (stripFlags p) := by
    intro m hmp
    have hform : rewritePrompt (some m) =
        match m.get "prompt" with
        | some (.str prompt) => some (m.set "prompt" (.str (stripFlags prompt)))
        | _ => some m := rfl
    rw [hform, hmp]
    simp [SendBody.prompt, GoMap.get_set_same]
  unfold Send
  simp only [hm, ne_eq, not_false_eq_true, if_true]
  cases MjNotifyEnabled with
  | true =>
    simp only [Bool.not_true, Bool.false_eq_true, if_false]
    apply hrew
    rw [GoMap.get_set_ne _ _ _ _ (by decide), GoMap.get_delete_ne _ _ _ (by decide), hp]
  | false =>
    simp only [Bool.not_false, if_true]
    apply hrew
    rw [GoMap.get_delete_ne _ _ _ (by decide), GoMap.get_set_ne _ _ _ _ (by decide),
      GoMap.get_delete_ne _ _ _ (by decide), hp]

/-- C9 as stated fails: for the body `{"prompt": "a cat --fast"}` and no hint, the outbound
prompt is `a cat ` with the blank that stood before the flag, not `a cat`. -/
theorem send_cat_prompt_keeps_blank :
    (Send id false "POST" "" catBody).prompt = some "a cat " ∧
    (Send id false "POST" "" catBody).prompt ≠ some "a cat" := by
  rw [Send_catBody_prompt]
  decide

/-- C9, amended: for every request that is not a GET and whose JSON body is an object, the
outbound `accountFilter` is `{"modes": [upper(h)]}` with h the `mj_model` hint, or `fast`
when the hint is empty, whatever the inbound body held under `accountFilter` and whatever
the casing of the hint; and the body `{"prompt": "a cat --fast"}` with no hint gives the
outbound prompt `a cat ` (the flag is removed, the blank before it stays) and the modes
`["FAST"]`. -/
theorem send_request_transform (unicodeUpper : Char → Char) (MjNotifyEnabled : Bool)
    (Method mjModel : String) (members : List (String × JSON)) (hm : Method ≠ "GET") :
    (Send unicodeUpper MjNotifyEnabled Method mjModel (.json (.obj members))).accountFilter =
      some (modesOnly (ToUpper unicodeUpper (if mjModel = "" then "fast" else mjModel))) ∧
    (Send unicodeUpper MjNotifyEnabled "POST" "" catBody).prompt = some "a cat " ∧
    (Send unicodeUpper MjNotifyEnabled "POST" "" catBody).accountFilter =
      some (modesOnly "FAST") := by
  refine ⟨Send_accountFilter unicodeUpper MjNotifyEnabled Method mjModel members hm,
    Send_catBody_prompt unicodeUpper MjNotifyEnabled, ?_⟩
  have h := Send_accountFilter unicodeUpper MjNotifyEnabled "POST" ""
    [("prompt", .str "a cat --fast")] (by decide)
  rw [if_pos rfl, ToUpper_fast] at h
  exact h

/-- C9, amended, at a PUT request with the hint `Relax` whose body already has an
`accountFilter` for `TURBO`: the outbound filter has the modes `[upper("Relax")]`. -/
theorem send_request_transform_witness :
    (Send id true "PUT" "Relax" dogBody).accountFilter =
      some (modesOnly (ToUpper id (if "Relax" = "" then "fast" else "Relax"))) :=
  (send_request_transform id true "PUT" "Relax"
    [("accountFilter", modesOnly "TURBO"), ("prompt", .str "a dog")] (by decide)).1

/-- The mode of the witness, computed: the hint `Relax` becomes `RELAX`. -/
theorem ToUpper_Relax : ToUpper id (if "Relax" = "" then "fast" else "Relax") = "RELAX" := by
  decide

/-! ### Inline flags -/

/-- C10 as stated fails: the prompt `--fa--fastst` is forwarded as `--fast`: removing the
occurrence of `--fast` in the middle puts the two ends together into a new one, and
`strings.Replace` does not look at its output again. -/
theorem strip_flags_leaves_a_flag :
    stripFlags "--fa--fastst" = "--fast" ∧
    Contains (stripFlags "--fa--fastst") "--fast" = true ∧
    (Send id false "POST" "" (.json (.obj [("prompt", .str "--fa--fastst")]))).prompt
      = some "--fast" := by
  have h : stripFlags "--fa--fastst" = "--fast" := by
    simp [stripFlags, Replace, replaceChars]
  refine ⟨h, ?_, ?_⟩
  · rw [h]
    decide
  · simp [Send, GoMap.ofMembers, GoMap.set, GoMap.delete, GoMap.get, rewritePrompt,
      SendBody.prompt, h]

theorem fast_data : "--fast".data = ['-', '-', 'f', 'a', 's', 't'] := rfl

theorem relax_data : "--relax".data = ['-', '-', 'r', 'e', 'l', 'a', 'x'] := rfl

theorem turbo_data : "--turbo".data = ['-', '-', 't', 'u', 'r', 'b', 'o'] := rfl

theorem flag_mem (f : Piece) (hf : f.IsFlag) : f.chars ∈ flagList := by
  cases f with
  | text t => exact absurd hf (by simp [Piece.IsFlag])
  | fast => simp [flagList, Piece.chars]
  | relax => simp [flagList, Piece.chars]
  | turbo => simp [flagList, Piece.chars]

theorem flagList_ne_nil (G : List Char) (hG : G ∈ flagList) : G.isEmpty = false := by
  simp only [flagList, List.mem_cons, List.mem_singleton, List.not_mem_nil, or_false] at hG
  rcases hG with rfl | rfl | rfl <;> rfl

theorem flagFree_flag (G t : List Char) (hG : G ∈ flagList) (h : flagFree t = true) :
    containsChars G t = false := by
  unfold flagFree at h
  rw [List.all_eq_true] at h
  simpa using h G hG

theorem closedEnd_tail (c : Char) (t : List Char) (h : closedEnd (c :: t) = true) :
    closedEnd t = true := by
  unfold closedEnd at h ⊢
  simp only [List.tails, List.all_cons, Bool.and_eq_true] at h
  exact h.2

/-- A flag does not begin at the start of a text that is free of it and does not end in a
beginning of a flag, whatever follows the text. -/
theorem no_flag_start (G t u : List Char) (hG : G ∈ flagList) (hne : t ≠ [])
    (hfree : containsChars G t = false) (hclosed : closedEnd t = true) :
    G.isPrefixOf (t ++ u) = false := by
  by_contra hcon
  have hpre : G <+: t ++ u := List.isPrefixOf_iff_prefix.mp (by simpa using hcon)
  have hGt : ¬ G <+: t := by
    intro hGt
    have hp : G.isPrefixOf t = true := List.isPrefixOf_iff_prefix.mpr hGt
    cases t with
    | nil => exact hne rfl
    | cons c cs => simp [containsChars, hp] at hfree
  rcases List.prefix_or_prefix_of_prefix hpre (List.prefix_append t u) with h1 | h2
  · exact hGt h1
  · have hneq : t ≠ G := fun heq => hGt (heq ▸ List.prefix_refl t)
    have hopen : isOpening t = true := by
      unfold isOpening
      have he : t.isEmpty = false := by
        cases t with
        | nil => exact absurd rfl hne
        | cons c cs => rfl
      rw [he]
      simp only [Bool.not_false, Bool.true_and, List.any_eq_true, Bool.and_eq_true]
      exact ⟨G, hG, List.isPrefixOf_iff_prefix.mpr h2, by simpa using hneq⟩
    unfold closedEnd at hclosed
    rw [List.all_eq_true] at hclosed
    have := hclosed t (by simp)
    simp [hopen] at this

/-- A pass for the flag `G` copies a text that is free of `G` and does not end in a
beginning of a flag, and goes on behind it. -/
theorem replaceChars_text (G t u : List Char) (hG : G ∈ flagList)
    (hfree : containsChars G t = false) (hclosed : closedEnd t = true) :
    replaceChars G [] (t ++ u) = t ++ replaceChars G [] u := by
  induction t with
  | nil => rfl
  | cons c cs ih =>
    have hstart := no_flag_start G (c :: cs) u hG (by simp) hfree hclosed
    have hfree2 : containsChars G cs = false := by
      simp only [containsChars, Bool.or_eq_false_iff] at hfree
      exact hfree.2
    rw [List.cons_append] at hstart ⊢
    rw [replaceChars, if_neg (by simp [hstart]), ih hfree2 (closedEnd_tail c cs hclosed)]
    rfl

/-- A pass for the flag `G` copies a text that is free of `G` and ends the prompt. -/
theorem replaceChars_last_text (G t : List Char) (hfree : containsChars G t = false) :
    replaceChars G [] t = t := by
  induction t with
  | nil => rw [replaceChars]
  | cons c cs ih =>
    simp only [containsChars, Bool.or_eq_false_iff] at hfree
    rw [replaceChars, if_neg (by simp [hfree.1]), ih hfree.2]

/-- One pass of `strings.Replace` for a flag `f`, over a flag followed by more text: the
flag goes when it is `f`, and stays when it is another one. -/
theorem replaceChars_flag (f p : Piece) (hf : f.IsFlag) (hp : p.IsFlag) (rest : List Char) :
    replaceChars f.chars [] (p.chars ++ rest) =
      (if p = f then [] else p.chars) ++ replaceChars f.chars [] rest := by
  cases p with
  | text t => exact absurd hp (by simp [Piece.IsFlag])
  | fast =>
    cases f with
    | text t2 => exact absurd hf (by simp [Piece.IsFlag])
    | fast => simp [Piece.chars, fast_data, replaceChars, List.isPrefixOf]
    | relax => simp [Piece.chars, fast_data, relax_data, replaceChars, List.isPrefixOf]
    | turbo => simp [Piece.chars, fast_data, turbo_data, replaceChars, List.isPrefixOf]
  | relax =>
    cases f with
    | text t2 => exact absurd hf (by simp [Piece.IsFlag])
    | fast => simp [Piece.chars, fast_data, relax_data, replaceChars, List.isPrefixOf]
    | relax => simp [Piece.chars, relax_data, replaceChars, List.isPrefixOf]
    | turbo => simp [Piece.chars, relax_data, turbo_data, replaceChars, List.isPrefixOf]
  | turbo =>
    cases f with
    | text t2 => exact absurd hf (by simp [Piece.IsFlag])
    | fast => simp [Piece.chars, fast_data, turbo_data, replaceChars, List.isPrefixOf]
    | relax => simp [Piece.chars, relax_data, turbo_data, replaceChars, List.isPrefixOf]
    | turbo => simp [Piece.chars, turbo_data, replaceChars, List.isPrefixOf]

theorem settled_cons (p : Piece) (ps : List Piece) (h : settled (p :: ps) = true) :
    p.flagFree = true ∧ settled ps = true ∧ (ps ≠ [] → p.closedEnd = true) := by
  cases ps with
  | nil => exact ⟨by simpa [settled] using h, rfl, fun hne => absurd rfl hne⟩
  | cons q rest =>
    simp only [settled, Bool.and_eq_true] at h
    exact ⟨h.1.1, h.2, fun _ => h.1.2⟩

/-- One pass over a settled prompt removes exactly the pieces that are `f`. -/
theorem replaceChars_pieces (f : Piece) (hf : f.IsFlag) (pieces : List Piece)
    (h : settled pieces = true) :
    replaceChars f.chars [] (pieces.flatMap Piece.chars) =
      (pieces.filter (fun p => decide (p ≠ f))).flatMap Piece.chars := by
  induction pieces with
  | nil =>
    simp only [List.flatMap_nil, List.filter_nil]
    rw [replaceChars]
  | cons p ps ih =>
    obtain ⟨hp, hps, hclosed⟩ := settled_cons p ps h
    rw [List.flatMap_cons]
    cases p with
    | text t =>
      have hne : Piece.text t ≠ f := by
        intro heq
        rw [← heq] at hf
        exact hf
      have hfree : containsChars f.chars t.data = false :=
        flagFree_flag _ _ (flag_mem f hf) hp
      rw [List.filter_cons_of_pos (by simpa using hne), List.flatMap_cons]
      have hc : (Piece.text t).chars = t.data := rfl
      rw [hc]
      cases ps with
      | nil =>
        simp only [List.flatMap_nil, List.append_nil, List.filter_nil]
        exact replaceChars_last_text _ _ hfree
      | cons q rest =>
        rw [replaceChars_text _ _ _ (flag_mem f hf) hfree (hclosed (by simp)), ih hps]
    | fast =>
      rw [replaceChars_flag f .fast hf trivial, ih hps]
      by_cases hpf : Piece.fast = f <;> simp [hpf]
    | relax =>
      rw [replaceChars_flag f .relax hf trivial, ih hps]
      by_cases hpf : Piece.relax = f <;> simp [hpf]
    | turbo =>
      rw [replaceChars_flag f .turbo hf trivial, ih hps]
      by_cases hpf : Piece.turbo = f <;> simp [hpf]

/-- Leaving out the pieces that are `f` keeps a prompt settled. -/
theorem settled_filter (f : Piece) (pieces : List Piece) (h : settled pieces = true) :
    settled (pieces.filter (fun p => decide (p ≠ f))) = true := by
  induction pieces with
  | nil => rfl
  | cons p ps ih =>
    obtain ⟨hp, hps, hclosed⟩ := settled_cons p ps h
    have ih2 := ih hps
    by_cases hpf : p = f
    · rw [List.filter_cons_of_neg (by simp [hpf])]
      exact ih2
    · rw [List.filter_cons_of_pos (by simpa using hpf)]
      cases hfil : ps.filter (fun p => decide (p ≠ f)) with
      | nil => simpa [settled] using hp
      | cons q rest =>
        have hne : ps ≠ [] := by
          intro hnil
          rw [hnil] at hfil
          simp at hfil
        rw [hfil] at ih2
        simp only [settled, Bool.and_eq_true]
        exact ⟨⟨hp, hclosed hne⟩, ih2⟩

theorem filtered_chars_eq_kept (pieces : List Piece) :
    (((pieces.filter (fun p => decide (p ≠ Piece.fast))).filter
        (fun p => decide (p ≠ Piece.relax))).filter
        (fun p => decide (p ≠ Piece.turbo))).flatMap Piece.chars =
      pieces.flatMap Piece.kept := by
  induction pieces with
  | nil => rfl
  | cons p ps ih =>
    cases p <;> simp [List.filter, Piece.chars, Piece.kept] <;> simpa using ih

/-- A flag does not occur in a text free of it that is followed by another such text, when
the first does not end in a beginning of a flag. -/
theorem containsChars_append (G t u : List Char) (hG : G ∈ flagList)
    (hfree : containsChars G t = false) (hclosed : closedEnd t = true)
    (hu : containsChars G u = false) : containsChars G (t ++ u) = false := by
  induction t with
  | nil => simpa using hu
  | cons c cs ih =>
    have hstart := no_flag_start G (c :: cs) u hG (by simp) hfree hclosed
    have hfree2 : containsChars G cs = false := by
      simp only [containsChars, Bool.or_eq_false_iff] at hfree
      exact hfree.2
    rw [List.cons_append] at hstart ⊢
    simp only [containsChars, Bool.or_eq_false_iff]
    exact ⟨hstart, ih hfree2 (closedEnd_tail c cs hclosed)⟩

/-- None of the flags occurs in the text that is kept of a settled prompt. -/
theorem kept_flag_free (G : List Char) (hG : G ∈ flagList) (pieces : List Piece)
    (h : settled pieces = true) : containsChars G (pieces.flatMap Piece.kept) = false := by
  induction pieces with
  | nil => simpa [containsChars] using flagList_ne_nil G hG
  | cons p ps ih =>
    obtain ⟨hp, hps, hclosed⟩ := settled_cons p ps h
    rw [List.flatMap_cons]
    cases p with
    | text t =>
      have hfree : containsChars G t.data = false := flagFree_flag _ _ hG hp
      cases ps with
      | nil => simpa [Piece.kept] using hfree
      | cons q rest =>
        exact containsChars_append G _ _ hG hfree (hclosed (by simp)) (ih hps)
    | fast => simpa [Piece.kept] using ih hps
    | relax => simpa [Piece.kept] using ih hps
    | turbo => simpa [Piece.kept] using ih hps

/-- The three passes on a settled prompt leave the text of its text pieces. -/
theorem stripFlags_assemble (pieces : List Piece) (h : settled pieces = true) :
    stripFlags (assemble pieces) = keptText pieces := by
  have h1 := replaceChars_pieces .fast trivial pieces h
  have h2 := replaceChars_pieces .relax trivial _ (settled_filter .fast pieces h)
  have h3 := replaceChars_pieces .turbo trivial _
    (settled_filter .relax _ (settled_filter .fast pieces h))
  have e : ("" : String).data = [] := rfl
  simp only [Piece.chars] at h1 h2 h3
  simp only [stripFlags, Replace, assemble, keptText, e, h1, h2, h3, filtered_chars_eq_kept]

/-- C10, amended: stripping is one left-to-right pass per flag, so a flag that a removal
puts together out of the text around it is kept. For every inbound prompt in which no text
that stands before a flag occurrence ends in a beginning of a flag (`-`, `--`, `--f`, ...,
`--turb`), that is, for every settled sequence of flag occurrences and flag-free text, the
prompt that `Send` forwards is the text with the flag occurrences left out, and it contains
none of `--fast`, `--relax`, `--turbo`. -/
theorem strip_flags_of_settled_prompt (pieces : List Piece) (h : settled pieces = true) :
    stripFlags (assemble pieces) = keptText pieces ∧
    (∀ (unicodeUpper : Char → Char) (MjNotifyEnabled : Bool) (Method mjModel : String)
      (members : List (String × JSON)), Method ≠ "GET" →
      (GoMap.ofMembers members).get "prompt" = some (.str (assemble pieces)) →
      (Send unicodeUpper MjNotifyEnabled Method mjModel (.json (.obj members))).prompt =
        some (keptText pieces)) ∧
    Contains (keptText pieces) "--fast" = false ∧
    Contains (keptText pieces) "--relax" = false ∧
    Contains (keptText pieces) "--turbo" = false := by
  refine ⟨stripFlags_assemble pieces h, ?_, ?_, ?_, ?_⟩
  · intro unicodeUpper MjNotifyEnabled Method mjModel members hm hp
    rw [Send_prompt unicodeUpper MjNotifyEnabled Method mjModel members _ hm hp,
      stripFlags_assemble pieces h]
  · exact kept_flag_free _ (by simp [flagList]) pieces h
  · exact kept_flag_free _ (by simp [flagList]) pieces h
  · exact kept_flag_free _ (by simp [flagList]) pieces h

/-- C10, amended, at the prompt `a cat --ar 16:9 --fast --v 6` sent by POST: the forwarded
prompt is the text of its two text pieces. -/
theorem strip_flags_of_settled_prompt_witness :
    (Send id false "POST" ""
        (.json (.obj [("prompt",
          .str (assemble [.text "a cat --ar 16:9 ", .fast, .text " --v 6"]))]))).prompt =
      some (keptText [.text "a cat --ar 16:9 ", .fast, .text " --v 6"]) :=
  (strip_flags_of_settled_prompt [.text "a cat --ar 16:9 ", .fast, .text " --v 6"]
    (by decide)).2.1 id false "POST" "" _ (by decide) rfl

/-- The prompt of the witness and what is forwarded for it, written out; two more prompts
that are settled, and the prompt `--fa--fastst`, which is not. -/
theorem assemble_examples :
    assemble [.text "a cat --ar 16:9 ", .fast, .text " --v 6"] = "a cat --ar 16:9 --fast --v 6" ∧
    keptText [.text "a cat --ar 16:9 ", .fast, .text " --v 6"] = "a cat --ar 16:9  --v 6" ∧
    settled [.text "a well-known cat ", .fast] = true ∧
    settled [.text "photo of a cat", .turbo, .relax, .text " at night -"] = true ∧
    assemble [.text "--fa", .fast, .text "st"] = "--fa--fastst" ∧
    settled [.text "--fa", .fast, .text "st"] = false := by
  decide

end OneHub
